import Mathlib

/-!
Verification of the supervisory core of `openvpn_netns_tools` against its
specification.  The Rust sources are shallowly embedded: pure computations
become Lean functions, and effectful code (subprocess launches, `kill`,
directory creation/removal, pipe reads) is modelled by functions that take
the outcomes of the primitive operations as explicit oracle parameters and
return, besides their result, the sequence of externally visible actions
they perform.

The embedding covers
- `src/idle_loop.rs`: the signal set, the signal (de)serialisation for the
  self-pipe, `consume_stdin`, `poll`, and `IdleLoop::next_event`;
- `src/bin/tunnel-ns.rs`: `NsConfDir`, `NetNs` (construction, the
  process-killing routine and the destructor), `create_namespaces` and
  `inner_main`'s resource handling.

Note on platform: the only signal-delivery implementation present in the
sources is the self-pipe worker, which is compiled under
`cfg(not(any(target_os = "linux", target_os = "android")))`; the crate as
given therefore builds only on the BSD/macOS family, and signal numbers
below are the BSD/macOS ones (`nix`'s `Signal` enum for that family).
-/

namespace ONT

/-- The `nix::sys::signal::Signal` enumeration as it exists on the
BSD/macOS family (the platform on which the self-pipe code in
`idle_loop.rs` is compiled): 31 signals, numbered 1 to 31. -/
inductive Signal
  | SIGHUP | SIGINT | SIGQUIT | SIGILL | SIGTRAP | SIGABRT | SIGEMT
  | SIGFPE | SIGKILL | SIGBUS | SIGSEGV | SIGSYS | SIGPIPE | SIGALRM
  | SIGTERM | SIGURG | SIGSTOP | SIGTSTP | SIGCONT | SIGCHLD | SIGTTIN
  | SIGTTOU | SIGIO | SIGXCPU | SIGXFSZ | SIGVTALRM | SIGPROF | SIGWINCH
  | SIGINFO | SIGUSR1 | SIGUSR2
  deriving DecidableEq, Repr

/-- The numeric value of each signal (BSD/macOS numbering), i.e. the value
of `sig as u32` used by `serialize_signal` in `idle_loop.rs`. -/
def Signal.num : Signal → Nat
  | .SIGHUP => 1 | .SIGINT => 2 | .SIGQUIT => 3 | .SIGILL => 4
  | .SIGTRAP => 5 | .SIGABRT => 6 | .SIGEMT => 7 | .SIGFPE => 8
  | .SIGKILL => 9 | .SIGBUS => 10 | .SIGSEGV => 11 | .SIGSYS => 12
  | .SIGPIPE => 13 | .SIGALRM => 14 | .SIGTERM => 15 | .SIGURG => 16
  | .SIGSTOP => 17 | .SIGTSTP => 18 | .SIGCONT => 19 | .SIGCHLD => 20
  | .SIGTTIN => 21 | .SIGTTOU => 22 | Signal.SIGIO => 23 | .SIGXCPU => 24
  | .SIGXFSZ => 25 | .SIGVTALRM => 26 | .SIGPROF => 27 | .SIGWINCH => 28
  | .SIGINFO => 29 | .SIGUSR1 => 30 | .SIGUSR2 => 31

/-- The partial inverse `Signal::from_c_int` of `nix`: maps a signal
number back to the `Signal` value, `none` for numbers that name no
signal (where the Rust function returns an `Err`). -/
def Signal.from_c_int : Nat → Option Signal
  | 1 => some .SIGHUP | 2 => some .SIGINT | 3 => some .SIGQUIT
  | 4 => some .SIGILL | 5 => some .SIGTRAP | 6 => some .SIGABRT
  | 7 => some .SIGEMT | 8 => some .SIGFPE | 9 => some .SIGKILL
  | 10 => some .SIGBUS | 11 => some .SIGSEGV | 12 => some .SIGSYS
  | 13 => some .SIGPIPE | 14 => some .SIGALRM | 15 => some .SIGTERM
  | 16 => some .SIGURG | 17 => some .SIGSTOP | 18 => some .SIGTSTP
  | 19 => some .SIGCONT | 20 => some .SIGCHLD | 21 => some .SIGTTIN
  | 22 => some .SIGTTOU | 23 => some Signal.SIGIO | 24 => some .SIGXCPU
  | 25 => some .SIGXFSZ | 26 => some .SIGVTALRM | 27 => some .SIGPROF
  | 28 => some .SIGWINCH | 29 => some .SIGINFO | 30 => some .SIGUSR1
  | 31 => some .SIGUSR2
  | _ => none

/-- `serialize_signal` (idle_loop.rs, lines 151-159): converts a `Signal`
into a byte for the self-pipe.  The Rust code takes `sig as u32`, asserts
that it is below 256, and truncates to `u8`; a failed assertion crashes,
modelled by `none`. -/
def serialize_signal (sig : Signal) : Option Nat :=
  let rv := sig.num
  if rv < 256 then some rv else none

/-- `deserialize_signal` (idle_loop.rs, lines 161-165): the inverse
operation, `Signal::from_c_int(sig as c_int).unwrap()`; the `unwrap` of an
unknown number crashes, modelled by `none`. -/
def deserialize_signal (sig : Nat) : Option Signal :=
  Signal.from_c_int sig

/-- A signal set, as manipulated through `nix::sys::signal::SigSet`:
membership of each (catchable-enum) signal. -/
def SigSet := Signal → Bool

/-- `SigSet::all()`: every signal is a member. -/
def SigSet.all : SigSet := fun _ => true

/-- `SigSet::remove`: drop one signal from the set. -/
def SigSet.remove (ss : SigSet) (s : Signal) : SigSet :=
  fun x => if x = s then false else ss x

/-- `sigset_normal_termination` (idle_loop.rs, lines 118-149): the signal
set is defined negatively, starting from `SigSet::all()` and removing the
signals that cannot be caught, the signals that normally suspend the
process, the signals that are normally ignored (the source comment notes
that SIGCHLD is deliberately not in that list), and the signals indicating
a fatal CPU exception or user abort. -/
def sigset_normal_termination : SigSet :=
  let ss := SigSet.all
  -- signals that cannot be caught
  let ss := ss.remove .SIGKILL
  let ss := ss.remove .SIGSTOP
  -- signals that normally suspend the process
  let ss := ss.remove .SIGTSTP
  let ss := ss.remove .SIGTTIN
  let ss := ss.remove .SIGTTOU
  -- signals that are normally ignored
  -- SIGCHLD is not in this list because we may need to respond to it
  let ss := ss.remove .SIGURG
  let ss := ss.remove .SIGWINCH
  -- signals indicating a fatal CPU exception or user abort
  let ss := ss.remove .SIGABRT
  let ss := ss.remove .SIGBUS
  let ss := ss.remove .SIGFPE
  let ss := ss.remove .SIGILL
  let ss := ss.remove .SIGQUIT
  let ss := ss.remove .SIGSEGV
  let ss := ss.remove .SIGSYS
  let ss := ss.remove .SIGTRAP
  ss

/-- `prepare_signals` (idle_loop.rs, lines 217-226) computes
`sigset_normal_termination()` and blocks exactly that set via
`thread_swap_mask(SIG_BLOCK)` before starting the relay worker; this
definition names the blocked set it establishes. -/
def prepare_signals_blocked_mask : SigSet := sigset_normal_termination

/-- The signals the startup code removes because they cannot be blocked. -/
def unblockableSignals : List Signal := [.SIGKILL, .SIGSTOP]

/-- The signals the startup code removes because they normally suspend
execution. -/
def suspendingSignals : List Signal := [.SIGTSTP, .SIGTTIN, .SIGTTOU]

/-- The signals the startup code removes as "normally ignored"; per the
source comment, SIGCHLD is deliberately excluded from this list. -/
def normallyIgnoredSignals : List Signal := [.SIGURG, .SIGWINCH]

/-- The signals the startup code removes because they indicate a fatal
CPU exception or an explicit abort request. -/
def fatalExceptionSignals : List Signal :=
  [.SIGABRT, .SIGBUS, .SIGFPE, .SIGILL, .SIGQUIT, .SIGSEGV, .SIGSYS, .SIGTRAP]

/-- C8: the blocked-signal set computed at startup equals the set of all
signals minus the unblockable signals (SIGKILL, SIGSTOP), the suspending
signals (SIGTSTP, SIGTTIN, SIGTTOU), the normally-ignored signals, and the
signals indicating a fatal CPU exception or explicit abort (SIGABRT,
SIGBUS, SIGFPE, SIGILL, SIGQUIT, SIGSEGV, SIGSYS, SIGTRAP); SIGCHLD
remains in the blocked set. -/
theorem c8_blocked_signal_set :
    (∀ s : Signal,
      prepare_signals_blocked_mask s = true ↔
        s ∉ unblockableSignals ++ suspendingSignals ++
            normallyIgnoredSignals ++ fatalExceptionSignals) ∧
    prepare_signals_blocked_mask Signal.SIGCHLD = true := by
  constructor
  · intro s
    cases s <;> decide
  · decide

/-- Witness for C8 at a concrete input: SIGTERM is blocked (it is in
none of the removal lists) and SIGCHLD is blocked. -/
theorem c8_blocked_signal_set_witness :
    (prepare_signals_blocked_mask Signal.SIGTERM = true ↔
      Signal.SIGTERM ∉ unblockableSignals ++ suspendingSignals ++
        normallyIgnoredSignals ++ fatalExceptionSignals) ∧
    prepare_signals_blocked_mask Signal.SIGCHLD = true :=
  ⟨c8_blocked_signal_set.1 Signal.SIGTERM, c8_blocked_signal_set.2⟩

/-- C10: every signal value has a number below 256, and deserialising its
one-byte serialisation yields the same signal back, so the relay pipe's
byte encoding of signals is lossless. -/
theorem c10_signal_serialisation_roundtrip :
    ∀ s : Signal,
      s.num < 256 ∧ (serialize_signal s).bind deserialize_signal = some s := by
  intro s
  cases s <;> exact ⟨by decide, by decide⟩

/-- Witness for C10 at a concrete input: SIGTERM (number 15) survives the
round trip. -/
theorem c10_signal_serialisation_roundtrip_witness :
    Signal.SIGTERM.num < 256 ∧
    (serialize_signal Signal.SIGTERM).bind deserialize_signal =
      some Signal.SIGTERM :=
  c10_signal_serialisation_roundtrip Signal.SIGTERM

/-! ## The idle loop (`src/idle_loop.rs`)

The event loop is embedded as a state machine.  The `IdleLoop` structure
mirrors the Rust struct field for field.  The outside world — the bytes
waiting in the self-pipe, the outcomes of successive `read`s on standard
input, and the set of reapable children — is a `World` value threaded
through the functions; reads consume from it.  `poll(-1)` blocks until a
descriptor is readable; a state in which nothing will ever become
readable is modelled by the distinguished outcome `blocked`. -/

/-- A simplified `HLError` (err.rs): the same constructors, carrying just
enough detail to distinguish them. -/
inductive HLErr
  | unsuccessfulChild (cmdline : List String)
  | ioError (detail : String)
  | nixError (detail : String)
  | piError (detail : String)
  | utf8Error (detail : String)
  deriving DecidableEq, Repr

/-- An `Event` (idle_loop.rs, lines 253-257): anything the main program
might need to take notice of. -/
inductive Event
  | StdinClosed
  | TermSignal (sig : Signal)
  | ChildExit (pid : Int)
  deriving DecidableEq, Repr

/-- The outcome of one `read` on standard input, as seen by
`consume_stdin`: `okBytes n` is `Ok(n)` (with `n = 0` meaning end of
file), and the two error outcomes distinguish `WouldBlock` from every
other error kind.  The bytes themselves are not represented because
`consume_stdin` discards them. -/
inductive ReadRes
  | okBytes (n : Nat)
  | errWouldBlock
  | errOther
  deriving DecidableEq, Repr

/-- `consume_stdin` (idle_loop.rs, lines 29-45): repeatedly read and
discard data from standard input until EOF (`Ok(0)`, returning `true`),
`WouldBlock` (returning `false`), or another error (returned as an
`HLError`).  The input is the stream of outcomes the successive `read`s
would produce; the unconsumed remainder is returned alongside.  An empty
stream means no data is available, i.e. the read reports nothing
(`WouldBlock`). -/
def consume_stdin : List ReadRes → (Except HLErr Bool × List ReadRes)
  | [] => (Except.ok false, [])
  | ReadRes.okBytes 0 :: rest => (Except.ok true, rest)
  | ReadRes.okBytes (_ + 1) :: rest => consume_stdin rest
  | ReadRes.errWouldBlock :: rest => (Except.ok false, rest)
  | ReadRes.errOther :: rest =>
      (Except.error (HLErr.ioError "stdin"), rest)

/-- The observable outside world of the idle loop: the pending outcomes of
reads on standard input, the signal bytes sitting in the self-pipe (in
arrival order), and the exited-but-unreaped children (`poll_next_child`
reports the first of them without consuming it; only the caller's
`waitpid` removes one). -/
structure World where
  stdinReads : List ReadRes
  sigPipe : List Signal
  kids : List Int
  deriving DecidableEq, Repr

/-- `next_signal` (idle_loop.rs, lines 196-209): read one byte from the
self-pipe and regenerate the `Signal`; when the pipe is drained return
`None`. -/
def next_signal (pipe : List Signal) : Option Signal × List Signal :=
  match pipe with
  | [] => (none, [])
  | s :: rest => (some s, rest)

/-- `poll_next_child` (idle_loop.rs, lines 94-114): report a reapable
child process, if any, without reaping it. -/
def poll_next_child (kids : List Int) : Option Int :=
  kids.head?

/-- The `IdleLoop` struct (idle_loop.rs, lines 260-266), minus the raw
file descriptor (the pipe contents live in the `World`). -/
structure IdleLoop where
  stdin_closed : Bool
  stdin_pending : Bool
  signal_pending : Bool
  children_pending : Bool
  deriving DecidableEq, Repr

/-- `IdleLoop::poll` (idle_loop.rs, lines 277-302): wait indefinitely for
readiness of the self-pipe and — only while stdin is not known closed —
of standard input, then record which of the two became readable.  The
self-pipe is readable when bytes are waiting in it; standard input is
readable when a read outcome is pending.  If nothing will ever become
readable the real call blocks forever, which the model reports as
`none`. -/
def IdleLoop.poll (l : IdleLoop) (w : World) : Option IdleLoop :=
  if l.stdin_closed then
    if w.sigPipe.isEmpty then none
    else some { l with signal_pending := true }
  else
    if w.sigPipe.isEmpty && w.stdinReads.isEmpty then none
    else some { l with
      signal_pending := if w.sigPipe.isEmpty then l.signal_pending else true,
      stdin_pending := if w.stdinReads.isEmpty then l.stdin_pending else true }

/-- The result of one pass through the body of the `loop` inside
`next_event`: return an event, go around the loop again, or block
forever inside `poll`. -/
inductive StepRes
  | ret (e : Event) (l : IdleLoop) (w : World)
  | next (l : IdleLoop) (w : World)
  | blocked
  deriving Repr

/-- The `if self.children_pending { ... }` block of `next_event`
(idle_loop.rs, lines 340-349). -/
def stepChild (l : IdleLoop) (w : World) : StepRes :=
  if l.children_pending then
    match poll_next_child w.kids with
    | some pid => StepRes.ret (Event.ChildExit pid) l w
    | none => StepRes.next { l with children_pending := false } w
  else StepRes.next l w

/-- The `if self.signal_pending { ... }` block of `next_event`
(idle_loop.rs, lines 327-339), followed by the children block of the same
iteration. -/
def stepSignal (l : IdleLoop) (w : World) : StepRes :=
  if l.signal_pending then
    match next_signal w.sigPipe with
    | (none, rest) =>
        stepChild { l with signal_pending := false } { w with sigPipe := rest }
    | (some s, rest) =>
        if s = Signal.SIGCHLD then
          stepChild { l with children_pending := true } { w with sigPipe := rest }
        else
          StepRes.ret (Event.TermSignal s) l { w with sigPipe := rest }
  else stepChild l w

/-- The `if self.stdin_pending { ... }` block of `next_event`
(idle_loop.rs, lines 311-326), followed by the signal and children blocks
of the same iteration.  EOF and any non-WouldBlock read error are handled
identically except that the error is additionally logged to stderr: both
set `stdin_closed` and return `Event::StdinClosed`. -/
def stepStdin (l : IdleLoop) (w : World) : StepRes :=
  if l.stdin_pending then
    let l1 := { l with stdin_pending := false }
    match consume_stdin w.stdinReads with
    | (Except.ok false, rest) => stepSignal l1 { w with stdinReads := rest }
    | (Except.ok true, rest) =>
        StepRes.ret Event.StdinClosed
          { l1 with stdin_closed := true } { w with stdinReads := rest }
    | (Except.error _, rest) =>
        StepRes.ret Event.StdinClosed
          { l1 with stdin_closed := true } { w with stdinReads := rest }
  else stepSignal l w

/-- One full iteration of the `loop` inside `next_event` (idle_loop.rs,
lines 305-350): poll if nothing is pending, then run the stdin, signal
and children blocks in that order. -/
def step (l : IdleLoop) (w : World) : StepRes :=
  match (if !l.stdin_pending && !l.signal_pending && !l.children_pending
         then l.poll w else some l) with
  | none => StepRes.blocked
  | some l1 => stepStdin l1 w

/-- The observable outcome of one `next_event` call: either an event
together with the successor loop state and world, or blocking forever. -/
inductive NEOut
  | ev (e : Event) (l : IdleLoop) (w : World)
  | blocked
  deriving DecidableEq, Repr

/-- `IdleLoop::next_event` (idle_loop.rs, lines 304-351): iterate the loop
body until it returns an event or blocks.  The `fuel` argument bounds the
number of iterations so the function is total; `none` means the bound was
reached (every theorem below supplies enough fuel for the bound never to
matter). -/
def next_event : Nat → IdleLoop → World → Option NEOut
  | 0, _, _ => none
  | fuel + 1, l, w =>
      match step l w with
      | StepRes.ret e l2 w2 => some (NEOut.ev e l2 w2)
      | StepRes.blocked => some NEOut.blocked
      | StepRes.next l2 w2 => next_event fuel l2 w2

/-- The event of a `next_event` outcome, if one was produced. -/
def outEvent : Option NEOut → Option Event
  | some (NEOut.ev e _ _) => some e
  | _ => none

/-- The successor loop state of a `next_event` outcome, if an event was
produced. -/
def outState : Option NEOut → Option IdleLoop
  | some (NEOut.ev _ l _) => some l
  | _ => none

/-- The successor world of a `next_event` outcome, if an event was
produced. -/
def outWorld : Option NEOut → Option World
  | some (NEOut.ev _ _ w) => some w
  | _ => none

/-! Reduction lemmas: one equation per reachable shape of the loop-body
functions, used to drive the loop symbolically in the proofs below. -/

theorem stepChild_off (l : IdleLoop) (w : World)
    (h : l.children_pending = false) : stepChild l w = StepRes.next l w := by
  simp [stepChild, h]

theorem stepChild_kid (l : IdleLoop) (r : List ReadRes) (p : List Signal)
    (pid : Int) (ks : List Int) (h : l.children_pending = true) :
    stepChild l ⟨r, p, pid :: ks⟩ =
      StepRes.ret (Event.ChildExit pid) l ⟨r, p, pid :: ks⟩ := by
  simp [stepChild, h, poll_next_child]

theorem stepChild_nokid (l : IdleLoop) (r : List ReadRes) (p : List Signal)
    (h : l.children_pending = true) :
    stepChild l ⟨r, p, []⟩ =
      StepRes.next { l with children_pending := false } ⟨r, p, []⟩ := by
  simp [stepChild, h, poll_next_child]

theorem stepSignal_off (l : IdleLoop) (w : World)
    (h : l.signal_pending = false) : stepSignal l w = stepChild l w := by
  simp [stepSignal, h]

theorem stepSignal_empty (l : IdleLoop) (r : List ReadRes) (k : List Int)
    (h : l.signal_pending = true) :
    stepSignal l ⟨r, [], k⟩ =
      stepChild { l with signal_pending := false } ⟨r, [], k⟩ := by
  simp [stepSignal, h, next_signal]

theorem stepSignal_chld (l : IdleLoop) (r : List ReadRes) (p : List Signal)
    (k : List Int) (h : l.signal_pending = true) :
    stepSignal l ⟨r, Signal.SIGCHLD :: p, k⟩ =
      stepChild { l with children_pending := true } ⟨r, p, k⟩ := by
  simp [stepSignal, h, next_signal]

theorem stepSignal_term (l : IdleLoop) (r : List ReadRes) (s : Signal)
    (p : List Signal) (k : List Int) (h : l.signal_pending = true)
    (hs : s ≠ Signal.SIGCHLD) :
    stepSignal l ⟨r, s :: p, k⟩ =
      StepRes.ret (Event.TermSignal s) l ⟨r, p, k⟩ := by
  simp [stepSignal, h, next_signal, hs]

theorem stepStdin_off (l : IdleLoop) (w : World)
    (h : l.stdin_pending = false) : stepStdin l w = stepSignal l w := by
  simp [stepStdin, h]

theorem step_no_poll (l : IdleLoop) (w : World)
    (h : (!l.stdin_pending && !l.signal_pending && !l.children_pending) = false) :
    step l w = stepStdin l w := by
  simp [step, h]

theorem step_polled (l l1 : IdleLoop) (w : World)
    (h : (!l.stdin_pending && !l.signal_pending && !l.children_pending) = true)
    (hp : l.poll w = some l1) : step l w = stepStdin l1 w := by
  simp [step, h, hp]

theorem step_poll_blocked (l : IdleLoop) (w : World)
    (h : (!l.stdin_pending && !l.signal_pending && !l.children_pending) = true)
    (hp : l.poll w = none) : step l w = StepRes.blocked := by
  simp [step, h, hp]

theorem poll_closed_nil (l : IdleLoop) (r : List ReadRes) (k : List Int)
    (hc : l.stdin_closed = true) : l.poll ⟨r, [], k⟩ = none := by
  simp [IdleLoop.poll, hc]

theorem poll_closed_cons (l : IdleLoop) (r : List ReadRes) (s : Signal)
    (p : List Signal) (k : List Int) (hc : l.stdin_closed = true) :
    l.poll ⟨r, s :: p, k⟩ = some { l with signal_pending := true } := by
  simp [IdleLoop.poll, hc]

theorem poll_nilstdin_nil (l : IdleLoop) (k : List Int) :
    l.poll ⟨[], [], k⟩ = none := by
  by_cases hc : l.stdin_closed <;> simp [IdleLoop.poll, hc]

theorem poll_nilstdin_cons (l : IdleLoop) (s : Signal) (p : List Signal)
    (k : List Int) :
    l.poll ⟨[], s :: p, k⟩ = some { l with signal_pending := true } := by
  by_cases hc : l.stdin_closed <;> simp [IdleLoop.poll, hc]

theorem next_event_ret (f : Nat) (l : IdleLoop) (w : World) (e : Event)
    (l2 : IdleLoop) (w2 : World) (h : step l w = StepRes.ret e l2 w2) :
    next_event (f + 1) l w = some (NEOut.ev e l2 w2) := by
  rw [next_event, h]

theorem next_event_blocked (f : Nat) (l : IdleLoop) (w : World)
    (h : step l w = StepRes.blocked) :
    next_event (f + 1) l w = some NEOut.blocked := by
  rw [next_event, h]

theorem next_event_next (f : Nat) (l : IdleLoop) (w : World)
    (l2 : IdleLoop) (w2 : World) (h : step l w = StepRes.next l2 w2) :
    next_event (f + 1) l w = next_event f l2 w2 := by
  rw [next_event, h]

/-- Fuel monotonicity: once `next_event` produces an outcome, more fuel
produces the same outcome. -/
theorem next_event_mono :
    ∀ (f g : Nat) (l : IdleLoop) (w : World) (r : NEOut), f ≤ g →
      next_event f l w = some r → next_event g l w = some r := by
  intro f
  induction f with
  | zero => intro g l w r _ h; simp [next_event] at h
  | succ f ih =>
      intro g l w r hfg h
      match g, hfg with
      | g + 1, hfg =>
        cases hs : step l w with
        | ret e l2 w2 =>
            rw [next_event_ret f l w e l2 w2 hs] at h
            rw [next_event_ret g l w e l2 w2 hs]
            exact h
        | blocked =>
            rw [next_event_blocked f l w hs] at h
            rw [next_event_blocked g l w hs]
            exact h
        | next l2 w2 =>
            rw [next_event_next f l w l2 w2 hs] at h
            rw [next_event_next g l w l2 w2 hs]
            exact ih g l2 w2 r (Nat.succ_le_succ_iff.mp hfg) h

/-- Discarded data reads do not affect the result of `consume_stdin`: a
prefix of successful non-empty reads is consumed and thrown away. -/
theorem consume_stdin_discards :
    ∀ (data tail : List ReadRes),
      (∀ r ∈ data, ∃ n, r = ReadRes.okBytes (n + 1)) →
      consume_stdin (data ++ tail) = consume_stdin tail := by
  intro data
  induction data with
  | nil => intro tail _; rfl
  | cons r data ih =>
      intro tail hd
      obtain ⟨n, rfl⟩ := hd r (List.mem_cons_self r data)
      rw [List.cons_append, consume_stdin]
      exact ih tail fun x hx => hd x (List.mem_cons_of_mem _ hx)

/-- C6: when draining the controlling input, end-of-data and any read
error other than would-block are handled identically — both mark the
input as closed and cause `next_event` to return the `StdinClosed` event
with the same successor state — while a would-block result produces no
event (the loop body just falls through to the signal check); all bytes
actually read (the prefix of successful data reads) are discarded. -/
theorem c6_stdin_eof_and_error_alike :
    ∀ (l : IdleLoop) (w : World) (f : Nat) (data rest : List ReadRes),
      l.stdin_pending = true →
      (∀ r ∈ data, ∃ n, r = ReadRes.okBytes (n + 1)) →
      ((w.stdinReads = data ++ ReadRes.okBytes 0 :: rest →
          next_event (f + 1) l w =
            some (NEOut.ev Event.StdinClosed
              { l with stdin_pending := false, stdin_closed := true }
              { w with stdinReads := rest })) ∧
       (w.stdinReads = data ++ ReadRes.errOther :: rest →
          next_event (f + 1) l w =
            some (NEOut.ev Event.StdinClosed
              { l with stdin_pending := false, stdin_closed := true }
              { w with stdinReads := rest })) ∧
       (w.stdinReads = data ++ ReadRes.errWouldBlock :: rest →
          step l w = stepSignal { l with stdin_pending := false }
            { w with stdinReads := rest })) := by
  intro l w f data rest hp hd
  have hstep : ∀ w2 : World, step l w2 = stepStdin l w2 := by
    intro w2
    rw [step]
    simp [hp]
  refine ⟨?_, ?_, ?_⟩
  · intro hr
    rw [next_event, hstep, stepStdin, if_pos hp, hr,
        consume_stdin_discards data _ hd, consume_stdin]
  · intro hr
    rw [next_event, hstep, stepStdin, if_pos hp, hr,
        consume_stdin_discards data _ hd, consume_stdin]
  · intro hr
    rw [hstep, stepStdin, if_pos hp, hr,
        consume_stdin_discards data _ hd, consume_stdin]

/-- Witness for C6 at a concrete input: three data bytes followed by EOF
produce `StdinClosed` and mark the input closed. -/
theorem c6_stdin_eof_and_error_alike_witness :
    next_event 1 ⟨false, true, false, false⟩ ⟨[ReadRes.okBytes 3, ReadRes.okBytes 0], [], []⟩ =
      some (NEOut.ev Event.StdinClosed ⟨true, false, false, false⟩ ⟨[], [], []⟩) :=
  (c6_stdin_eof_and_error_alike ⟨false, true, false, false⟩
      ⟨[ReadRes.okBytes 3, ReadRes.okBytes 0], [], []⟩ 0 [ReadRes.okBytes 3] []
      rfl (by intro r hr; simp at hr; exact ⟨2, hr⟩)).1 rfl

/-- For a loop state whose stdin flag is consumed and input already
closed, one loop-body iteration ignores the pending stdin outcomes
entirely: it blocks, returns a non-stdin event, or goes around again,
identically for any two stdin streams, preserving the closed state and
touching only the signal pipe. -/
theorem step_closed_cases
    (l : IdleLoop) (p : List Signal) (k : List Int) (r1 r2 : List ReadRes)
    (hc : l.stdin_closed = true) (hp : l.stdin_pending = false) :
    (step l ⟨r1, p, k⟩ = StepRes.blocked ∧ step l ⟨r2, p, k⟩ = StepRes.blocked) ∨
    (∃ e l2 p2, e ≠ Event.StdinClosed ∧
       l2.stdin_closed = true ∧ l2.stdin_pending = false ∧
       step l ⟨r1, p, k⟩ = StepRes.ret e l2 ⟨r1, p2, k⟩ ∧
       step l ⟨r2, p, k⟩ = StepRes.ret e l2 ⟨r2, p2, k⟩) ∨
    (∃ l2 p2,
       l2.stdin_closed = true ∧ l2.stdin_pending = false ∧
       step l ⟨r1, p, k⟩ = StepRes.next l2 ⟨r1, p2, k⟩ ∧
       step l ⟨r2, p, k⟩ = StepRes.next l2 ⟨r2, p2, k⟩) := by
  -- a helper for the children block, applicable to any post-poll state
  have hchild : ∀ (l1 : IdleLoop) (p2 : List Signal),
      l1.stdin_closed = true → l1.stdin_pending = false →
      (∃ e l2 p3, e ≠ Event.StdinClosed ∧
         l2.stdin_closed = true ∧ l2.stdin_pending = false ∧
         stepChild l1 ⟨r1, p2, k⟩ = StepRes.ret e l2 ⟨r1, p3, k⟩ ∧
         stepChild l1 ⟨r2, p2, k⟩ = StepRes.ret e l2 ⟨r2, p3, k⟩) ∨
      (∃ l2 p3,
         l2.stdin_closed = true ∧ l2.stdin_pending = false ∧
         stepChild l1 ⟨r1, p2, k⟩ = StepRes.next l2 ⟨r1, p3, k⟩ ∧
         stepChild l1 ⟨r2, p2, k⟩ = StepRes.next l2 ⟨r2, p3, k⟩) := by
    intro l1 p2 hc1 hp1
    by_cases hcp : l1.children_pending
    · match k with
      | [] =>
          right
          refine ⟨{ l1 with children_pending := false }, p2, hc1, hp1, ?_, ?_⟩ <;>
            rw [stepChild_nokid _ _ _ hcp]
      | pid :: ks =>
          left
          refine ⟨Event.ChildExit pid, l1, p2, by simp, hc1, hp1, ?_, ?_⟩ <;>
            rw [stepChild_kid _ _ _ _ _ hcp]
    · right
      have hcp2 : l1.children_pending = false := by
        simpa using hcp
      exact ⟨l1, p2, hc1, hp1, by rw [stepChild_off _ _ hcp2], by rw [stepChild_off _ _ hcp2]⟩
  -- a helper for the signal block onward, applicable to any post-poll state
  have hsig : ∀ (l1 : IdleLoop),
      l1.stdin_closed = true → l1.stdin_pending = false →
      (∃ e l2 p2, e ≠ Event.StdinClosed ∧
         l2.stdin_closed = true ∧ l2.stdin_pending = false ∧
         stepStdin l1 ⟨r1, p, k⟩ = StepRes.ret e l2 ⟨r1, p2, k⟩ ∧
         stepStdin l1 ⟨r2, p, k⟩ = StepRes.ret e l2 ⟨r2, p2, k⟩) ∨
      (∃ l2 p2,
         l2.stdin_closed = true ∧ l2.stdin_pending = false ∧
         stepStdin l1 ⟨r1, p, k⟩ = StepRes.next l2 ⟨r1, p2, k⟩ ∧
         stepStdin l1 ⟨r2, p, k⟩ = StepRes.next l2 ⟨r2, p2, k⟩) := by
    intro l1 hc1 hp1
    rw [stepStdin_off _ _ hp1, stepStdin_off _ _ hp1]
    by_cases hgp : l1.signal_pending
    · match p with
      | [] =>
          rw [stepSignal_empty _ _ _ hgp, stepSignal_empty _ _ _ hgp]
          exact hchild { l1 with signal_pending := false } [] hc1 hp1
      | s :: p' =>
          by_cases hchld : s = Signal.SIGCHLD
          · subst hchld
            rw [stepSignal_chld _ _ _ _ hgp, stepSignal_chld _ _ _ _ hgp]
            exact hchild { l1 with children_pending := true } p' hc1 hp1
          · rw [stepSignal_term _ _ _ _ _ hgp hchld,
                stepSignal_term _ _ _ _ _ hgp hchld]
            left
            exact ⟨Event.TermSignal s, l1, p', by simp, hc1, hp1, rfl, rfl⟩
    · have hgp2 : l1.signal_pending = false := by simpa using hgp
      rw [stepSignal_off _ _ hgp2, stepSignal_off _ _ hgp2]
      exact hchild l1 p hc1 hp1
  by_cases hflags : (!l.stdin_pending && !l.signal_pending && !l.children_pending) = true
  · match p with
    | [] =>
        left
        constructor <;>
          exact step_poll_blocked _ _ hflags (poll_closed_nil _ _ _ hc)
    | s :: p' =>
        have h1 := step_polled l { l with signal_pending := true } ⟨r1, s :: p', k⟩
          hflags (poll_closed_cons _ _ _ _ _ hc)
        have h2 := step_polled l { l with signal_pending := true } ⟨r2, s :: p', k⟩
          hflags (poll_closed_cons _ _ _ _ _ hc)
        rw [h1, h2]
        right
        exact hsig { l with signal_pending := true } hc hp
  · have hf : (!l.stdin_pending && !l.signal_pending && !l.children_pending) = false := by
      simpa using hflags
    rw [step_no_poll _ _ hf, step_no_poll _ _ hf]
    right
    exact hsig l hc hp

/-- C7: once `stdin_closed` is set (and the pending flag consumed, as it
is whenever `StdinClosed` has just been returned), `next_event` never
consults the controlling input again — its outcome is the same for any
two worlds that agree on the signal pipe and the children — it never
returns another `StdinClosed` event, and the closed state persists. -/
theorem c7_stdin_close_idempotent :
    ∀ (f : Nat) (l : IdleLoop) (w1 w2 : World),
      l.stdin_closed = true → l.stdin_pending = false →
      w1.sigPipe = w2.sigPipe → w1.kids = w2.kids →
      outEvent (next_event f l w1) = outEvent (next_event f l w2) ∧
      outEvent (next_event f l w1) ≠ some Event.StdinClosed ∧
      (outState (next_event f l w1)).all
        (fun l2 => l2.stdin_closed && !l2.stdin_pending) = true := by
  intro f
  induction f with
  | zero =>
      intro l w1 w2 _ _ _ _
      exact ⟨rfl, by simp [next_event, outEvent], by simp [next_event, outState]⟩
  | succ f ih =>
      intro l w1 w2 hc hp hs hk
      obtain ⟨r1, p1, k1⟩ := w1
      obtain ⟨r2, p2, k2⟩ := w2
      simp only at hs hk
      subst hs hk
      rcases step_closed_cases l p1 k1 r1 r2 hc hp with
        ⟨h1, h2⟩ | ⟨e, l2, p2, hne, hc2, hp2, h1, h2⟩ | ⟨l2, p2, hc2, hp2, h1, h2⟩
      · rw [next_event_blocked f _ _ h1, next_event_blocked f _ _ h2]
        exact ⟨rfl, by simp [outEvent], by simp [outState]⟩
      · rw [next_event_ret f _ _ _ _ _ h1, next_event_ret f _ _ _ _ _ h2]
        exact ⟨rfl, by simp [outEvent, hne], by simp [outState, Option.all, hc2, hp2]⟩
      · rw [next_event_next f _ _ _ _ h1, next_event_next f _ _ _ _ h2]
        exact ih l2 ⟨r1, p2, k1⟩ ⟨r2, p2, k1⟩ hc2 hp2 rfl rfl

/-- Witness for C7 at a concrete input: a closed loop ignores pending
stdin data, returns the pending terminating signal and stays closed. -/
theorem c7_stdin_close_idempotent_witness :
    outEvent (next_event 2 ⟨true, false, false, false⟩
        ⟨[ReadRes.okBytes 7], [Signal.SIGTERM], []⟩) =
      outEvent (next_event 2 ⟨true, false, false, false⟩
        ⟨[], [Signal.SIGTERM], []⟩) ∧
    outEvent (next_event 2 ⟨true, false, false, false⟩
        ⟨[ReadRes.okBytes 7], [Signal.SIGTERM], []⟩) ≠ some Event.StdinClosed ∧
    (outState (next_event 2 ⟨true, false, false, false⟩
        ⟨[ReadRes.okBytes 7], [Signal.SIGTERM], []⟩)).all
      (fun l2 => l2.stdin_closed && !l2.stdin_pending) = true :=
  c7_stdin_close_idempotent 2 ⟨true, false, false, false⟩
    ⟨[ReadRes.okBytes 7], [Signal.SIGTERM], []⟩ ⟨[], [Signal.SIGTERM], []⟩
    rfl rfl rfl rfl

/-! ## One-call summary of `next_event` after stdin is quiet

`drainSig` and `drainNext` are derived summaries of one `next_event` call
in the situation relevant to claim C2: no stdin activity (`stdin_pending`
consumed, no pending read outcomes).  They are proved equal to the
fuelled `next_event` below (`next_event_drain`); all counting arguments
are then carried out on the summaries. -/

/-- Summary of a `next_event` call whose signal-pending flag is set:
read bytes off the pipe one loop iteration at a time.  A non-SIGCHLD
byte returns immediately as `TermSignal`; a SIGCHLD byte marks children
pending, and the same iteration's children block either returns the
first reapable child or clears the flag again; an empty pipe clears the
signal flag, after which a pending child (if any) is returned, else the
call blocks.  The result carries the event and the successor
`signal_pending` / `children_pending` flags and pipe remainder. -/
def drainSig : Bool → List Int → List Signal →
    Option (Event × Bool × Bool × List Signal)
  | cp, kids, [] =>
      if cp then
        match kids.head? with
        | some pid => some (Event.ChildExit pid, false, true, [])
        | none => none
      else none
  | cp, kids, s :: rest =>
      if s = Signal.SIGCHLD then
        match kids.head? with
        | some pid => some (Event.ChildExit pid, true, true, rest)
        | none => drainSig false kids rest
      else some (Event.TermSignal s, true, cp, rest)

/-- Summary of a full `next_event` call with no stdin activity, for any
combination of the pending flags on entry. -/
def drainNext (gp cp : Bool) (pipe : List Signal) (kids : List Int) :
    Option (Event × Bool × Bool × List Signal) :=
  if gp then drainSig cp kids pipe
  else if cp then
    match kids.head? with
    | some pid => some (Event.ChildExit pid, false, true, pipe)
    | none =>
        match pipe with
        | [] => none
        | _ :: _ => drainSig false kids pipe
  else
    match pipe with
    | [] => none
    | _ :: _ => drainSig cp kids pipe

/-- Reassemble a summary result into a `next_event` outcome. -/
def outOf (sc : Bool) (kids : List Int) :
    Option (Event × Bool × Bool × List Signal) → NEOut
  | none => NEOut.blocked
  | some (e, gp, cp, pipe) => NEOut.ev e ⟨sc, false, gp, cp⟩ ⟨[], pipe, kids⟩

/-- Two states whose loop bodies coincide produce the same outcome. -/
theorem next_event_congr_step (f : Nat) (l1 l2 : IdleLoop) (w1 w2 : World)
    (h : step l1 w1 = step l2 w2) :
    next_event (f + 1) l1 w1 = next_event (f + 1) l2 w2 := by
  rw [next_event, next_event, h]

/-- Characterisation of `next_event` from a signal-pending state with no
stdin activity: it computes `drainSig`. -/
theorem next_event_drain_gp :
    ∀ (pipe : List Signal) (cp : Bool) (kids : List Int) (sc : Bool),
      next_event (pipe.length + 2) ⟨sc, false, true, cp⟩ ⟨[], pipe, kids⟩ =
        some (outOf sc kids (drainSig cp kids pipe)) := by
  intro pipe
  induction pipe with
  | nil =>
      intro cp kids sc
      cases cp <;> cases kids <;> cases sc <;> rfl
  | cons s rest ih =>
      intro cp kids sc
      by_cases hs : s = Signal.SIGCHLD
      · subst hs
        have hstep : step ⟨sc, false, true, cp⟩ ⟨[], Signal.SIGCHLD :: rest, kids⟩ =
            stepChild ⟨sc, false, true, true⟩ ⟨[], rest, kids⟩ := by
          rw [step_no_poll _ _ (by simp), stepStdin_off _ _ rfl,
              stepSignal_chld _ _ _ _ rfl]
        match kids with
        | pid :: ks =>
            rw [next_event_ret _ _ _ _ _ _
                  (by rw [hstep, stepChild_kid _ _ _ _ _ rfl])]
            simp [drainSig, outOf]
        | [] =>
            rw [next_event_next _ _ _ _ _
                  (by rw [hstep, stepChild_nokid _ _ _ rfl])]
            have := ih false [] sc
            simp only [List.length_cons]
            rw [this]
            simp [drainSig]
      · have hstep : step ⟨sc, false, true, cp⟩ ⟨[], s :: rest, kids⟩ =
            StepRes.ret (Event.TermSignal s) ⟨sc, false, true, cp⟩ ⟨[], rest, kids⟩ := by
          rw [step_no_poll _ _ (by simp), stepStdin_off _ _ rfl,
              stepSignal_term _ _ _ _ _ rfl hs]
        rw [next_event_ret _ _ _ _ _ _ hstep]
        simp [drainSig, hs, outOf]

/-- Characterisation of `next_event` from an all-flags-clear state with
no stdin activity: poll either blocks or marks the signal pipe and the
call proceeds as from a signal-pending state. -/
theorem next_event_drain_idle :
    ∀ (pipe : List Signal) (kids : List Int) (sc : Bool) (f : Nat),
      pipe.length + 2 ≤ f →
      next_event f ⟨sc, false, false, false⟩ ⟨[], pipe, kids⟩ =
        some (outOf sc kids (drainNext false false pipe kids)) := by
  intro pipe kids sc f hf
  match pipe, f, hf with
  | [], f + 1, _ =>
      rw [next_event_blocked f _ _
            (step_poll_blocked _ _ (by simp) (poll_nilstdin_nil _ _))]
      rfl
  | s :: rest, f + 1, hf =>
      have hcongr : step ⟨sc, false, false, false⟩ ⟨[], s :: rest, kids⟩ =
          step ⟨sc, false, true, false⟩ ⟨[], s :: rest, kids⟩ := by
        rw [step_polled _ _ _ (by simp) (poll_nilstdin_cons _ _ _ _),
            step_no_poll _ _ (by simp)]
      rw [next_event_congr_step f _ _ _ _ hcongr]
      have hle : (s :: rest).length + 2 ≤ f + 1 := hf
      rw [next_event_mono ((s :: rest).length + 2) (f + 1) _ _ _ hle
            (next_event_drain_gp (s :: rest) false kids sc)]
      rfl

/-- Characterisation of `next_event` from any combination of the pending
flags, with no stdin activity: it computes `drainNext`. -/
theorem next_event_drain :
    ∀ (gp cp : Bool) (pipe : List Signal) (kids : List Int) (sc : Bool) (f : Nat),
      pipe.length + 3 ≤ f →
      next_event f ⟨sc, false, gp, cp⟩ ⟨[], pipe, kids⟩ =
        some (outOf sc kids (drainNext gp cp pipe kids)) := by
  intro gp cp pipe kids sc f hf
  cases gp with
  | true =>
      rw [next_event_mono (pipe.length + 2) f _ _ _
            (by omega) (next_event_drain_gp pipe cp kids sc)]
      simp [drainNext]
  | false =>
      cases cp with
      | true =>
          match f, hf with
          | f + 1, hf =>
            have hstep : step ⟨sc, false, false, true⟩ ⟨[], pipe, kids⟩ =
                stepChild ⟨sc, false, false, true⟩ ⟨[], pipe, kids⟩ := by
              rw [step_no_poll _ _ (by simp), stepStdin_off _ _ rfl,
                  stepSignal_off _ _ rfl]
            match kids with
            | pid :: ks =>
                rw [next_event_ret _ _ _ _ _ _
                      (by rw [hstep, stepChild_kid _ _ _ _ _ rfl])]
                rfl
            | [] =>
                rw [next_event_next _ _ _ _ _
                      (by rw [hstep, stepChild_nokid _ _ _ rfl])]
                rw [next_event_drain_idle pipe [] sc f (by omega)]
                match pipe with
                | [] => rfl
                | _ :: _ => rfl
      | false =>
          rw [next_event_drain_idle pipe kids sc f (by omega)]

/-- The non-SIGCHLD signals of a pipe, in order: exactly the occurrences
that `next_event` must surface as `TermSignal` events. -/
def nonChld (pipe : List Signal) : List Signal :=
  pipe.filter (fun s => s ≠ Signal.SIGCHLD)

/-- Project the signal out of a `TermSignal` event. -/
def evTermSig : Event → Option Signal
  | Event.TermSignal s => some s
  | _ => none

/-- Project the pid out of a `ChildExit` event. -/
def evChildPid : Event → Option Int
  | Event.ChildExit pid => some pid
  | _ => none

/-- The caller's reaction to an event, as in `inner_main` of
tunnel-ns.rs (lines 286-308): a `ChildExit(pid)` is answered with
`waitpid(pid, None)`, which reaps that child so the non-destructive reap
query no longer reports it; other events consume nothing. -/
def reap (e : Event) (w : World) : World :=
  match e with
  | Event.ChildExit pid => { w with kids := w.kids.erase pid }
  | _ => w

/-- Enough fuel for one `next_event` call: every loop iteration either
consumes a pipe byte or a pending stdin outcome, or clears a flag, and
only boundedly many flag-clearing iterations can occur in a row. -/
def fuelFor (w : World) : Nat := w.stdinReads.length + w.sigPipe.length + 4

/-- The consumer loop: call `next_event`, record the event, let the
caller reap an exited child, repeat — `n` times (the idle loop itself
never terminates; its caller stops requesting events). -/
def drive : Nat → IdleLoop → World → List Event
  | 0, _, _ => []
  | n + 1, l, w =>
      match next_event (fuelFor w) l w with
      | some (NEOut.ev e l2 w2) => e :: drive n l2 (reap e w2)
      | _ => []

/-- Counting behaviour of one summarised call: a returned `TermSignal`
consumes exactly one non-SIGCHLD byte (the first one), a returned
`ChildExit` reports the first reapable child and consumes no non-SIGCHLD
byte, blocking happens only when nothing remains, and `StdinClosed` is
never produced.  The invariant "children still to report imply the
children flag is set or a SIGCHLD byte remains" is preserved. -/
theorem drainSig_spec :
    ∀ (pipe : List Signal) (cp : Bool) (kids : List Int),
      (kids = [] ∨ cp = true ∨ Signal.SIGCHLD ∈ pipe) →
      (drainSig cp kids pipe = none → nonChld pipe = [] ∧ kids = []) ∧
      (∀ s gp2 cp2 pipe2,
        drainSig cp kids pipe = some (Event.TermSignal s, gp2, cp2, pipe2) →
          nonChld pipe = s :: nonChld pipe2 ∧
          (kids = [] ∨ cp2 = true ∨ Signal.SIGCHLD ∈ pipe2)) ∧
      (∀ pid gp2 cp2 pipe2,
        drainSig cp kids pipe = some (Event.ChildExit pid, gp2, cp2, pipe2) →
          kids.head? = some pid ∧ cp2 = true ∧ nonChld pipe2 = nonChld pipe) ∧
      (∀ gp2 cp2 pipe2,
        drainSig cp kids pipe ≠ some (Event.StdinClosed, gp2, cp2, pipe2)) := by
  intro pipe
  induction pipe with
  | nil =>
      intro cp kids hinv
      cases cp with
      | false =>
          refine ⟨fun _ => ⟨rfl, ?_⟩, ?_, ?_, ?_⟩
          · rcases hinv with h | h | h
            · exact h
            · exact absurd h (by simp)
            · exact absurd h (by simp)
          · intro s gp2 cp2 pipe2 h; exact absurd h (by simp [drainSig])
          · intro pid gp2 cp2 pipe2 h; exact absurd h (by simp [drainSig])
          · intro gp2 cp2 pipe2 h; exact absurd h (by simp [drainSig])
      | true =>
          match kids with
          | [] =>
              refine ⟨fun _ => ⟨rfl, rfl⟩, ?_, ?_, ?_⟩
              · intro s gp2 cp2 pipe2 h; exact absurd h (by simp [drainSig])
              · intro pid gp2 cp2 pipe2 h; exact absurd h (by simp [drainSig])
              · intro gp2 cp2 pipe2 h; exact absurd h (by simp [drainSig])
          | k0 :: ks =>
              refine ⟨fun h => ?_, ?_, ?_, ?_⟩
              · exact absurd h (by simp [drainSig])
              · intro s gp2 cp2 pipe2 h; exact absurd h (by simp [drainSig])
              · intro pid gp2 cp2 pipe2 h
                have := h
                simp [drainSig] at this
                obtain ⟨h1, _, h3, h4⟩ := this
                exact ⟨by simp [h1], h3, by rw [h4]⟩
              · intro gp2 cp2 pipe2 h; exact absurd h (by simp [drainSig])
  | cons s rest ih =>
      intro cp kids hinv
      by_cases hs : s = Signal.SIGCHLD
      · subst hs
        match kids with
        | [] =>
            have hrec := ih false [] (Or.inl rfl)
            have hdef : drainSig cp [] (Signal.SIGCHLD :: rest) =
                drainSig false [] rest := by
              simp [drainSig]
            have hnc : nonChld (Signal.SIGCHLD :: rest) = nonChld rest := by
              simp [nonChld]
            refine ⟨fun h => ?_, ?_, ?_, ?_⟩
            · rw [hdef] at h
              exact ⟨by rw [hnc]; exact (hrec.1 h).1, rfl⟩
            · intro s2 gp2 cp2 pipe2 h
              rw [hdef] at h
              obtain ⟨h1, _⟩ := hrec.2.1 s2 gp2 cp2 pipe2 h
              exact ⟨by rw [hnc]; exact h1, Or.inl rfl⟩
            · intro pid gp2 cp2 pipe2 h
              rw [hdef] at h
              obtain ⟨h1, h2, h3⟩ := hrec.2.2.1 pid gp2 cp2 pipe2 h
              exact ⟨h1, h2, by rw [h3, hnc]⟩
            · intro gp2 cp2 pipe2 h
              rw [hdef] at h
              exact hrec.2.2.2 gp2 cp2 pipe2 h
        | k0 :: ks =>
            have hdef : drainSig cp (k0 :: ks) (Signal.SIGCHLD :: rest) =
                some (Event.ChildExit k0, true, true, rest) := by
              simp [drainSig]
            refine ⟨fun h => ?_, ?_, ?_, ?_⟩
            · rw [hdef] at h; exact absurd h (by simp)
            · intro s2 gp2 cp2 pipe2 h
              rw [hdef] at h; exact absurd h (by simp)
            · intro pid gp2 cp2 pipe2 h
              rw [hdef] at h
              simp at h
              obtain ⟨h1, _, h3, h4⟩ := h
              exact ⟨by simp [h1], h3, by rw [h4]; simp [nonChld]⟩
            · intro gp2 cp2 pipe2 h
              rw [hdef] at h; exact absurd h (by simp)
      · have hdef : drainSig cp kids (s :: rest) =
            some (Event.TermSignal s, true, cp, rest) := by
          simp [drainSig, hs]
        have hnc : nonChld (s :: rest) = s :: nonChld rest := by
          simp [nonChld, hs]
        refine ⟨fun h => ?_, ?_, ?_, ?_⟩
        · rw [hdef] at h; exact absurd h (by simp)
        · intro s2 gp2 cp2 pipe2 h
          rw [hdef] at h
          simp at h
          obtain ⟨h1, _, h3, h4⟩ := h
          subst h4
          constructor
          · rw [hnc, h1]
          · rcases hinv with hk | hcp | hmem
            · exact Or.inl hk
            · exact Or.inr (Or.inl (by rw [← h3, hcp]))
            · rcases List.mem_cons.mp hmem with heq | hmem2
              · exact absurd heq.symm hs
              · exact Or.inr (Or.inr hmem2)
        · intro pid gp2 cp2 pipe2 h
          rw [hdef] at h; exact absurd h (by simp)
        · intro gp2 cp2 pipe2 h
          rw [hdef] at h; exact absurd h (by simp)

/-- The counting behaviour of `drainSig` extends to a call entered with
any combination of the pending flags. -/
theorem drainNext_spec :
    ∀ (gp cp : Bool) (pipe : List Signal) (kids : List Int),
      (kids = [] ∨ cp = true ∨ Signal.SIGCHLD ∈ pipe) →
      (drainNext gp cp pipe kids = none → nonChld pipe = [] ∧ kids = []) ∧
      (∀ s gp2 cp2 pipe2,
        drainNext gp cp pipe kids = some (Event.TermSignal s, gp2, cp2, pipe2) →
          nonChld pipe = s :: nonChld pipe2 ∧
          (kids = [] ∨ cp2 = true ∨ Signal.SIGCHLD ∈ pipe2)) ∧
      (∀ pid gp2 cp2 pipe2,
        drainNext gp cp pipe kids = some (Event.ChildExit pid, gp2, cp2, pipe2) →
          kids.head? = some pid ∧ cp2 = true ∧ nonChld pipe2 = nonChld pipe) ∧
      (∀ gp2 cp2 pipe2,
        drainNext gp cp pipe kids ≠ some (Event.StdinClosed, gp2, cp2, pipe2)) := by
  intro gp cp pipe kids hinv
  cases gp with
  | true =>
      have hdef : drainNext true cp pipe kids = drainSig cp kids pipe := by
        simp [drainNext]
      rw [hdef]
      exact drainSig_spec pipe cp kids hinv
  | false =>
      cases cp with
      | true =>
          match kids with
          | k0 :: ks =>
              have hdef : drainNext false true pipe (k0 :: ks) =
                  some (Event.ChildExit k0, false, true, pipe) := by
                simp [drainNext]
              rw [hdef]
              refine ⟨fun h => absurd h (by simp), ?_, ?_, ?_⟩
              · intro s gp2 cp2 pipe2 h; exact absurd h (by simp)
              · intro pid gp2 cp2 pipe2 h
                simp at h
                obtain ⟨h1, _, h3, h4⟩ := h
                exact ⟨by simp [h1], h3, by rw [h4]⟩
              · intro gp2 cp2 pipe2 h; exact absurd h (by simp)
          | [] =>
              match pipe with
              | [] =>
                  refine ⟨fun _ => ⟨rfl, rfl⟩, ?_, ?_, ?_⟩
                  · intro s gp2 cp2 pipe2 h; exact absurd h (by simp [drainNext])
                  · intro pid gp2 cp2 pipe2 h; exact absurd h (by simp [drainNext])
                  · intro gp2 cp2 pipe2 h; exact absurd h (by simp [drainNext])
              | p0 :: prest =>
                  have hdef : drainNext false true (p0 :: prest) ([] : List Int) =
                      drainSig false [] (p0 :: prest) := by
                    simp [drainNext]
                  rw [hdef]
                  exact drainSig_spec (p0 :: prest) false [] (Or.inl rfl)
      | false =>
          match pipe with
          | [] =>
              refine ⟨fun _ => ⟨rfl, ?_⟩, ?_, ?_, ?_⟩
              · rcases hinv with h | h | h
                · exact h
                · exact absurd h (by simp)
                · exact absurd h (by simp)
              · intro s gp2 cp2 pipe2 h; exact absurd h (by simp [drainNext])
              · intro pid gp2 cp2 pipe2 h; exact absurd h (by simp [drainNext])
              · intro gp2 cp2 pipe2 h; exact absurd h (by simp [drainNext])
          | p0 :: prest =>
              have hdef : drainNext false false (p0 :: prest) kids =
                  drainSig false kids (p0 :: prest) := by
                simp [drainNext]
              rw [hdef]
              exact drainSig_spec (p0 :: prest) false kids
                (by rcases hinv with h | h | h
                    · exact Or.inl h
                    · exact absurd h (by simp)
                    · exact Or.inr (Or.inr h))

/-- Driving the loop for exactly (number of pending non-SIGCHLD signal
occurrences) + (number of reapable children) calls surfaces each of them
exactly once, in a strict event-per-call fashion. -/
theorem drive_drain :
    ∀ (n : Nat) (gp cp : Bool) (pipe : List Signal) (kids : List Int) (sc : Bool),
      n = (nonChld pipe).length + kids.length →
      (kids = [] ∨ cp = true ∨ Signal.SIGCHLD ∈ pipe) →
      (drive n ⟨sc, false, gp, cp⟩ ⟨[], pipe, kids⟩).length = n ∧
      (drive n ⟨sc, false, gp, cp⟩ ⟨[], pipe, kids⟩).filterMap evTermSig =
        nonChld pipe ∧
      (drive n ⟨sc, false, gp, cp⟩ ⟨[], pipe, kids⟩).filterMap evChildPid =
        kids ∧
      Event.StdinClosed ∉ drive n ⟨sc, false, gp, cp⟩ ⟨[], pipe, kids⟩ := by
  intro n
  induction n with
  | zero =>
      intro gp cp pipe kids sc hn _
      have hp : nonChld pipe = [] :=
        List.length_eq_zero.mp (by omega)
      have hk : kids = [] :=
        List.length_eq_zero.mp (by omega)
      exact ⟨rfl, by simp [drive, hp], by simp [drive, hk], by simp [drive]⟩
  | succ n ih =>
      intro gp cp pipe kids sc hn hinv
      have hfuel : pipe.length + 3 ≤ fuelFor ⟨[], pipe, kids⟩ := by
        simp [fuelFor]
      have hne := next_event_drain gp cp pipe kids sc _ hfuel
      have hspec := drainNext_spec gp cp pipe kids hinv
      rw [drive, hne]
      cases hdn : drainNext gp cp pipe kids with
      | none =>
          obtain ⟨h1, h2⟩ := hspec.1 hdn
          have : (nonChld pipe).length + kids.length = 0 := by
            rw [h1, h2]; rfl
          omega
      | some res =>
          obtain ⟨e, gp2, cp2, pipe2⟩ := res
          cases e with
          | StdinClosed => exact absurd hdn (hspec.2.2.2 gp2 cp2 pipe2)
          | TermSignal s =>
              obtain ⟨hA, hInv2⟩ := hspec.2.1 s gp2 cp2 pipe2 hdn
              have hlen : (nonChld pipe).length = (nonChld pipe2).length + 1 := by
                rw [hA]; rfl
              have hih := ih gp2 cp2 pipe2 kids sc (by omega) hInv2
              simp only [outOf, reap]
              refine ⟨?_, ?_, ?_, ?_⟩
              · simp [hih.1]
              · simp only [List.filterMap_cons, evTermSig]
                rw [hih.2.1, hA]
              · simp only [List.filterMap_cons, evTermSig, evChildPid]
                exact hih.2.2.1
              · intro hmem
                rcases List.mem_cons.mp hmem with h | h
                · exact absurd h (by simp)
                · exact hih.2.2.2 h
          | ChildExit pid =>
              obtain ⟨hHead, hcp2, hA⟩ := hspec.2.2.1 pid gp2 cp2 pipe2 hdn
              match kids, hHead with
              | k0 :: ks, hHead =>
                have hk0 : k0 = pid := by
                  simpa using hHead
                subst hk0
                subst hcp2
                have herase : (k0 :: ks).erase k0 = ks :=
                  List.erase_cons_head k0 ks
                have hih := ih gp2 true pipe2 ks sc
                  (by rw [hA]; simp at hn; omega)
                  (Or.inr (Or.inl rfl))
                simp only [outOf, reap, herase]
                refine ⟨?_, ?_, ?_, ?_⟩
                · simp [hih.1]
                · simp only [List.filterMap_cons, evTermSig, evChildPid]
                  rw [hih.2.1, hA]
                · simp only [List.filterMap_cons, evChildPid]
                  rw [hih.2.2.1]
                · intro hmem
                  rcases List.mem_cons.mp hmem with h | h
                  · exact absurd h (by simp)
                  · exact hih.2.2.2 h

/-- C2: every `next_event` call in the post-setup phase yields exactly one
event, each non-SIGCHLD signal occurrence delivered through the signal
pipe is surfaced as exactly one `TermSignal` event (never twice), each
reapable child is surfaced as a `ChildExit` event exactly once, a
terminating signal is never merged with a child exit (each call's event
is a single constructor, and over K signal occurrences and M children,
exactly K+M calls each return exactly one of them), and no spurious
`StdinClosed` appears.  Children become reportable only after a SIGCHLD
observation (`children_pending` set or a SIGCHLD byte pending). -/
theorem c2_next_event_exactly_once :
    ∀ (sc gp cp : Bool) (pipe : List Signal) (kids : List Int),
      (kids = [] ∨ cp = true ∨ Signal.SIGCHLD ∈ pipe) →
      (drive ((nonChld pipe).length + kids.length)
          ⟨sc, false, gp, cp⟩ ⟨[], pipe, kids⟩).length =
        (nonChld pipe).length + kids.length ∧
      (drive ((nonChld pipe).length + kids.length)
          ⟨sc, false, gp, cp⟩ ⟨[], pipe, kids⟩).filterMap evTermSig =
        nonChld pipe ∧
      (drive ((nonChld pipe).length + kids.length)
          ⟨sc, false, gp, cp⟩ ⟨[], pipe, kids⟩).filterMap evChildPid =
        kids ∧
      Event.StdinClosed ∉ drive ((nonChld pipe).length + kids.length)
          ⟨sc, false, gp, cp⟩ ⟨[], pipe, kids⟩ :=
  fun sc gp cp pipe kids hinv =>
    drive_drain ((nonChld pipe).length + kids.length) gp cp pipe kids sc rfl hinv

/-- Witness for C2 at a concrete input: pipe SIGCHLD then SIGTERM, one
reapable child 5: two calls produce exactly the child exit and the
terminating signal, once each. -/
theorem c2_next_event_exactly_once_witness :
    (drive ((nonChld [Signal.SIGCHLD, Signal.SIGTERM]).length + [(5 : Int)].length)
        ⟨false, false, false, false⟩
        ⟨[], [Signal.SIGCHLD, Signal.SIGTERM], [(5 : Int)]⟩).length =
      (nonChld [Signal.SIGCHLD, Signal.SIGTERM]).length + [(5 : Int)].length ∧
    (drive ((nonChld [Signal.SIGCHLD, Signal.SIGTERM]).length + [(5 : Int)].length)
        ⟨false, false, false, false⟩
        ⟨[], [Signal.SIGCHLD, Signal.SIGTERM], [(5 : Int)]⟩).filterMap evTermSig =
      nonChld [Signal.SIGCHLD, Signal.SIGTERM] ∧
    (drive ((nonChld [Signal.SIGCHLD, Signal.SIGTERM]).length + [(5 : Int)].length)
        ⟨false, false, false, false⟩
        ⟨[], [Signal.SIGCHLD, Signal.SIGTERM], [(5 : Int)]⟩).filterMap evChildPid =
      [(5 : Int)] ∧
    Event.StdinClosed ∉ drive ((nonChld [Signal.SIGCHLD, Signal.SIGTERM]).length + [(5 : Int)].length)
        ⟨false, false, false, false⟩
        ⟨[], [Signal.SIGCHLD, Signal.SIGTERM], [(5 : Int)]⟩ :=
  c2_next_event_exactly_once false false false
    [Signal.SIGCHLD, Signal.SIGTERM] [(5 : Int)] (by decide)

/-! ## tunnel-ns (`src/bin/tunnel-ns.rs`)

The resource lifecycle is embedded as trace-producing functions.  Every
externally visible action — a directory creation or removal, a spawned
`ip` command, a `kill`, the grace sleep, a stdout line, the closing of
stdout, a diagnostic line on stderr — is recorded as an `Act`.  The
outcomes of the fallible primitives are supplied by a `SysWorld` oracle
keyed by namespace name (the two `ip netns pids` enumerations of one
teardown get separate oracle entries because they are distinct calls).
Verbose-mode logging writes only diagnostics to stderr and is not traced;
`errLine` records the error/warning lines the code emits on failures.
The idle loop between setup and teardown writes only to stderr and
touches no resource, so it contributes nothing to these traces. -/

/-- One externally visible action of tunnel-ns. -/
inductive Act
  | mkdirAct (path : String)       -- fs::create_dir_all
  | runAct (argv : List String)    -- a spawned child command
  | termAct (pid : Int)            -- kill(pid, SIGTERM)
  | killAct (pid : Int)            -- kill(pid, SIGKILL)
  | sleepAct (secs : Nat)          -- thread::sleep
  | rmdirAct (path : String)       -- fs::remove_dir_all
  | outLine (s : String)           -- println! to stdout
  | closeOutAct                    -- close_stdout()
  | errLine                        -- an error/warning line on stderr
  deriving DecidableEq, Repr

/-- The `ChildEnv` struct (subprocess.rs, lines 17-22). -/
structure ChildEnv where
  env : List (String × String)
  mask : SigSet
  verbose : Bool
  dryrun : Bool

/-- Oracle for the fallible primitives, keyed by namespace name.  `true`
means the primitive succeeds.  `pids1`/`pids2` are the results of the
first and second `ip netns pids` enumeration during one teardown. -/
structure SysWorld where
  mkdirOk : String → Bool
  nsAddOk : String → Bool
  loUpOk : String → Bool
  nsDelOk : String → Bool
  loDownOk : String → Bool
  rmdirOk : String → Bool
  pids1 : String → Except HLErr (List Int)
  pids2 : String → Except HLErr (List Int)

/-- `run` (subprocess.rs, lines 64-72): spawn the command and wait; a
non-zero exit becomes an `UnsuccessfulChild` error.  The success of the
concrete invocation is the oracle argument. -/
def run (argv : List String) (ok : Bool) : List Act × Except HLErr Unit :=
  ([Act.runAct argv],
   if ok then Except.ok () else Except.error (HLErr.unsuccessfulChild argv))

/-- `run_ignore_failure` (subprocess.rs, lines 74-81): like `run` but a
failure is written to stderr and otherwise ignored. -/
def run_ignore_failure (argv : List String) (ok : Bool) : List Act :=
  match run argv ok with
  | (t, Except.ok _) => t
  | (t, Except.error _) => t ++ [Act.errLine]

/-- `run_get_output_pids` (subprocess.rs, lines 96-108): spawn the
command with captured stdout and parse the output as a whitespace-
separated pid list; the spawn, UTF-8 and parse outcomes are collapsed
into the oracle-provided `Except` result. -/
def run_get_output_pids (argv : List String) (res : Except HLErr (List Int)) :
    List Act × Except HLErr (List Int) :=
  ([Act.runAct argv], res)

/-- The `/etc/netns/{name}` path of a namespace's configuration
directory. -/
def nsPath (name : String) : String := "/etc/netns/" ++ name

/-- The `NsConfDir` struct (tunnel-ns.rs, lines 66-69): the path of the
created directory (the env reference is passed separately here). -/
structure NsConfDir where
  path : String
  deriving DecidableEq, Repr

/-- `NsConfDir::new` (tunnel-ns.rs, lines 71-85): create
`/etc/netns/{name}` (and parents) unless in dry-run mode; a failure of
`create_dir_all` is returned as an `IOError`. -/
def NsConfDir.new (name : String) (env : ChildEnv) (w : SysWorld) :
    List Act × Except HLErr NsConfDir :=
  let path := nsPath name
  if env.dryrun then ([], Except.ok ⟨path⟩)
  else if w.mkdirOk path then ([Act.mkdirAct path], Except.ok ⟨path⟩)
  else ([Act.mkdirAct path], Except.error (HLErr.ioError path))

/-- `Drop for NsConfDir` (tunnel-ns.rs, lines 87-100): remove the
directory tree unless in dry-run mode; a failure is only a warning on
stderr. -/
def NsConfDir.drop (d : NsConfDir) (env : ChildEnv) (w : SysWorld) : List Act :=
  if env.dryrun then []
  else if w.rmdirOk d.path then [Act.rmdirAct d.path]
  else [Act.rmdirAct d.path, Act.errLine]

/-- The `NetNs` struct (tunnel-ns.rs, lines 104-108): the namespace name
and its configuration directory. -/
structure NetNs where
  name : String
  confdir : NsConfDir
  deriving DecidableEq, Repr

/-- The `ip netns add` command line. -/
def nsAddArgv (name : String) : List String := ["ip", "netns", "add", name]

/-- The loopback-up command line. -/
def loUpArgv (name : String) : List String :=
  ["ip", "netns", "exec", name, "ip", "link", "set", "dev", "lo", "up"]

/-- The loopback-down command line. -/
def loDownArgv (name : String) : List String :=
  ["ip", "netns", "exec", name, "ip", "link", "set", "dev", "lo", "down"]

/-- The `ip netns del` command line. -/
def nsDelArgv (name : String) : List String := ["ip", "netns", "del", name]

/-- The `ip netns pids` command line. -/
def nsPidsArgv (name : String) : List String := ["ip", "netns", "pids", name]

/-- `NetNs::new` (tunnel-ns.rs, lines 110-127): create the configuration
directory, `ip netns add` the namespace, bring loopback up.  A failed
`ip netns add` propagates the error (dropping the just-created
directory on the way out).  If the loopback step fails, the namespace is
deleted manually (`run_ignore_failure(["ip","netns","del",name])`)
before the error is returned, because RAII is not yet in effect; the
local `confdir` is likewise dropped on that return path. -/
def NetNs.new (name : String) (env : ChildEnv) (w : SysWorld) :
    List Act × Except HLErr NetNs :=
  match NsConfDir.new name env w with
  | (t1, Except.error e) => (t1, Except.error e)
  | (t1, Except.ok confdir) =>
      match run (nsAddArgv name) (w.nsAddOk name) with
      | (t2, Except.error e) =>
          (t1 ++ t2 ++ confdir.drop env w, Except.error e)
      | (t2, Except.ok _) =>
          match run (loUpArgv name) (w.loUpOk name) with
          | (t3, Except.error e) =>
              (t1 ++ t2 ++ t3 ++
                 run_ignore_failure (nsDelArgv name) (w.nsDelOk name) ++
                 confdir.drop env w,
               Except.error e)
          | (t3, Except.ok _) =>
              (t1 ++ t2 ++ t3, Except.ok ⟨name, confdir⟩)

/-- `NetNs::kill_processes_in_namespace` (tunnel-ns.rs, lines 129-156):
enumerate resident pids (`try!`: an enumeration failure returns the
error at once); if none, done; otherwise SIGTERM each (delivery errors
deliberately ignored), sleep five seconds, re-enumerate (`try!` again);
if none remain, done; otherwise SIGKILL each survivor. -/
def NetNs.kill_processes_in_namespace (ns : NetNs) (w : SysWorld) :
    List Act × Except HLErr Unit :=
  match run_get_output_pids (nsPidsArgv ns.name) (w.pids1 ns.name) with
  | (t1, Except.error e) => (t1, Except.error e)
  | (t1, Except.ok to_kill) =>
      if to_kill = [] then (t1, Except.ok ())
      else
        let t2 := to_kill.map Act.termAct
        let t3 := [Act.sleepAct 5]
        match run_get_output_pids (nsPidsArgv ns.name) (w.pids2 ns.name) with
        | (t4, Except.error e) => (t1 ++ t2 ++ t3 ++ t4, Except.error e)
        | (t4, Except.ok to_kill2) =>
            if to_kill2 = [] then (t1 ++ t2 ++ t3 ++ t4, Except.ok ())
            else (t1 ++ t2 ++ t3 ++ t4 ++ to_kill2.map Act.killAct,
                  Except.ok ())

/-- `Drop for NetNs` (tunnel-ns.rs, lines 158-169): kill resident
processes (an error from that routine is printed to stderr, never
propagated), then best-effort loopback-down and namespace deletion, then
the implicit drop of the `_confdir` field removes the configuration
directory. -/
def NetNs.drop (ns : NetNs) (env : ChildEnv) (w : SysWorld) : List Act :=
  (match ns.kill_processes_in_namespace w with
   | (t, Except.ok _) => t
   | (t, Except.error _) => t ++ [Act.errLine]) ++
  run_ignore_failure (loDownArgv ns.name) (w.loDownOk ns.name) ++
  run_ignore_failure (nsDelArgv ns.name) (w.nsDelOk ns.name) ++
  ns.confdir.drop env w

/-- Dropping a Rust `Vec<NetNs>` runs the destructor of each element in
order from index 0 upward (slice `drop_in_place` drops front to back),
i.e. in creation order, not reverse. -/
def dropVec (nsps : List NetNs) (env : ChildEnv) (w : SysWorld) : List Act :=
  (nsps.map fun ns => ns.drop env w).flatten

/-- The name `{PREFIX}_ns{i}` of the i-th namespace. -/
def mkNsName (pfx : String) (i : Nat) : String :=
  pfx ++ "_ns" ++ toString i

/-- The loop of `create_namespaces` (tunnel-ns.rs, lines 176-181),
starting at index `i` with `rem` iterations to go and the already
created namespaces in `acc`: each iteration creates one `NetNs`
(`try!`: a failure returns the error, dropping the local `Vec` —
front to back — on the way out) and prints its name to stdout; after
the loop, stdout is closed. -/
def create_loop (pfx : String) (env : ChildEnv) (w : SysWorld) :
    Nat → Nat → List NetNs → List Act × Except HLErr (List NetNs)
  | _, 0, acc => ([Act.closeOutAct], Except.ok acc)
  | i, rem + 1, acc =>
      match NetNs.new (mkNsName pfx i) env w with
      | (t, Except.error e) => (t ++ dropVec acc env w, Except.error e)
      | (t, Except.ok ns) =>
          let rest := create_loop pfx env w (i + 1) rem (acc ++ [ns])
          (t ++ [Act.outLine ns.name] ++ rest.1, rest.2)

/-- `create_namespaces` (tunnel-ns.rs, lines 173-183): create `nnsp`
namespaces named `{pfx}_ns0 ..`, writing one stdout line per created
namespace, then close stdout; on failure the already created namespaces
are dropped (front to back) and the error is returned. -/
def create_namespaces (pfx : String) (nnsp : Nat) (env : ChildEnv)
    (w : SysWorld) : List Act × Except HLErr (List NetNs) :=
  create_loop pfx env w 0 nnsp []

/-- The resource-lifecycle part of `inner_main`/`main` (tunnel-ns.rs,
lines 269-320): create the namespaces; on failure the error is printed
and the exit code is 1; on success the idle loop runs (stderr-only, not
traced) until a shutdown event, then `_nsps` is dropped — front to
back — and the exit code is 0. -/
def inner_main (pfx : String) (nnsp : Nat) (env : ChildEnv) (w : SysWorld) :
    List Act × Nat :=
  match create_namespaces pfx nnsp env w with
  | (t, Except.error _) => (t ++ [Act.errLine], 1)
  | (t, Except.ok nsps) => (t ++ dropVec nsps env w, 0)

/-- Recognise an `ip netns add` invocation and extract the name. -/
def isNsAdd : Act → Option String
  | Act.runAct ["ip", "netns", "add", n] => some n
  | _ => none

/-- Recognise an `ip netns del` invocation and extract the name. -/
def isNsDel : Act → Option String
  | Act.runAct ["ip", "netns", "del", n] => some n
  | _ => none

/-- Recognise a stdout action (a written line or the closing). -/
def isStdoutAct : Act → Bool
  | Act.outLine _ => true
  | Act.closeOutAct => true
  | _ => false

/-- The names, in order, of the `ip netns add` invocations of a trace. -/
def addOrder (t : List Act) : List String := t.filterMap isNsAdd

/-- The names, in order, of the `ip netns del` invocations of a trace. -/
def delOrder (t : List Act) : List String := t.filterMap isNsDel

/-- The stdout actions (lines and the closing) of a trace, in order. -/
def stdoutTrace (t : List Act) : List Act := t.filter isStdoutAct

/-- A world in which every primitive succeeds and namespaces are empty at
teardown. -/
def allOkWorld : SysWorld where
  mkdirOk := fun _ => true
  nsAddOk := fun _ => true
  loUpOk := fun _ => true
  nsDelOk := fun _ => true
  loDownOk := fun _ => true
  rmdirOk := fun _ => true
  pids1 := fun _ => Except.ok []
  pids2 := fun _ => Except.ok []

/-- A quiet, non-dry-run environment. -/
def env0 : ChildEnv where
  env := []
  mask := fun _ => false
  verbose := false
  dryrun := false

/-- C5: a teardown whose first enumeration finds zero resident pids sends
no terminate or kill request and does not sleep the grace interval; when
residents are found, the trace is exactly enumerate, SIGTERM each, the
fixed 5-second sleep, re-enumerate, SIGKILL the survivors — so every
kill request comes after the grace interval and goes only to pids still
present at the second enumeration. -/
theorem c5_grace_protocol :
    ∀ (ns : NetNs) (w : SysWorld),
      (w.pids1 ns.name = Except.ok [] →
        ns.kill_processes_in_namespace w =
          ([Act.runAct (nsPidsArgv ns.name)], Except.ok ()) ∧
        (∀ p, Act.termAct p ∉ (ns.kill_processes_in_namespace w).1) ∧
        (∀ p, Act.killAct p ∉ (ns.kill_processes_in_namespace w).1) ∧
        Act.sleepAct 5 ∉ (ns.kill_processes_in_namespace w).1) ∧
      (∀ ps ps2, ps ≠ [] →
        w.pids1 ns.name = Except.ok ps → w.pids2 ns.name = Except.ok ps2 →
        (ns.kill_processes_in_namespace w).1 =
          Act.runAct (nsPidsArgv ns.name) ::
            (ps.map Act.termAct ++
              Act.sleepAct 5 :: Act.runAct (nsPidsArgv ns.name) ::
                ps2.map Act.killAct) ∧
        (ns.kill_processes_in_namespace w).2 = Except.ok () ∧
        (∀ p, Act.killAct p ∈ (ns.kill_processes_in_namespace w).1 → p ∈ ps2) ∧
        (∃ t1 t2, (ns.kill_processes_in_namespace w).1 =
            t1 ++ Act.sleepAct 5 :: t2 ∧ ∀ p, Act.killAct p ∉ t1)) := by
  intro ns w
  constructor
  · intro h1
    have hk : ns.kill_processes_in_namespace w =
        ([Act.runAct (nsPidsArgv ns.name)], Except.ok ()) := by
      simp [NetNs.kill_processes_in_namespace, run_get_output_pids, h1]
    refine ⟨hk, ?_, ?_, ?_⟩ <;> rw [hk] <;> simp
  · intro ps ps2 hne h1 h2
    have hk : (ns.kill_processes_in_namespace w).1 =
        Act.runAct (nsPidsArgv ns.name) ::
          (ps.map Act.termAct ++
            Act.sleepAct 5 :: Act.runAct (nsPidsArgv ns.name) ::
              ps2.map Act.killAct) ∧
        (ns.kill_processes_in_namespace w).2 = Except.ok () := by
      by_cases h2e : ps2 = []
      · subst h2e
        constructor <;>
          simp [NetNs.kill_processes_in_namespace, run_get_output_pids, h1, h2, hne]
      · constructor <;>
          simp [NetNs.kill_processes_in_namespace, run_get_output_pids, h1, h2, hne, h2e]
    refine ⟨hk.1, hk.2, ?_, ?_⟩
    · intro p hp
      rw [hk.1] at hp
      rcases List.mem_cons.mp hp with h | h
      · exact absurd h (by simp)
      rcases List.mem_append.mp h with h | h
      · obtain ⟨q, _, hqe⟩ := List.mem_map.mp h
        cases hqe
      rcases List.mem_cons.mp h with h | h
      · exact absurd h (by simp)
      rcases List.mem_cons.mp h with h | h
      · exact absurd h (by simp)
      obtain ⟨q, hq, hqe⟩ := List.mem_map.mp h
      injection hqe with hq2
      exact hq2 ▸ hq
    · refine ⟨Act.runAct (nsPidsArgv ns.name) :: ps.map Act.termAct,
        Act.runAct (nsPidsArgv ns.name) :: ps2.map Act.killAct, ?_, ?_⟩
      · rw [hk.1]; simp
      · intro p hp
        rcases List.mem_cons.mp hp with h | h
        · exact absurd h (by simp)
        obtain ⟨q, _, hqe⟩ := List.mem_map.mp h
        cases hqe

/-- Witness for C5 at concrete inputs: an empty namespace is torn down
with a single enumeration, and a namespace with pids 3,4 of which 4
survives gets SIGTERM to both, the 5-second sleep, and SIGKILL only
to 4. -/
theorem c5_grace_protocol_witness :
    (NetNs.kill_processes_in_namespace ⟨"a_ns0", ⟨nsPath "a_ns0"⟩⟩ allOkWorld =
      ([Act.runAct (nsPidsArgv "a_ns0")], Except.ok ()) ∧
     (∀ p, Act.termAct p ∉
        (NetNs.kill_processes_in_namespace ⟨"a_ns0", ⟨nsPath "a_ns0"⟩⟩ allOkWorld).1) ∧
     (∀ p, Act.killAct p ∉
        (NetNs.kill_processes_in_namespace ⟨"a_ns0", ⟨nsPath "a_ns0"⟩⟩ allOkWorld).1) ∧
     Act.sleepAct 5 ∉
       (NetNs.kill_processes_in_namespace ⟨"a_ns0", ⟨nsPath "a_ns0"⟩⟩ allOkWorld).1) :=
  (c5_grace_protocol ⟨"a_ns0", ⟨nsPath "a_ns0"⟩⟩ allOkWorld).1 rfl

/-- C3: if bringing the loopback up fails for a resource, `NetNs::new`
invokes the namespace-deletion primitive for it before returning the
error, the configuration directory is removed after that (still before
the error is reported), and no owned `NetNs` value is handed to the
caller. -/
theorem c3_loopback_failure_compensated :
    ∀ (name : String) (env : ChildEnv) (w : SysWorld),
      (env.dryrun = true ∨ w.mkdirOk (nsPath name) = true) →
      w.nsAddOk name = true →
      w.loUpOk name = false →
      (NetNs.new name env w).2 =
        Except.error (HLErr.unsuccessfulChild (loUpArgv name)) ∧
      (∃ t1 t2, (NetNs.new name env w).1 =
          t1 ++ Act.runAct (nsDelArgv name) :: t2 ∧
          (env.dryrun = false → Act.rmdirAct (nsPath name) ∈ t2)) := by
  intro name env w h1 h2 h3
  have hcd : NsConfDir.new name env w =
      ((if env.dryrun then [] else [Act.mkdirAct (nsPath name)]),
       Except.ok ⟨nsPath name⟩) := by
    by_cases hd : env.dryrun
    · simp [NsConfDir.new, hd]
    · rcases h1 with h | h
      · exact absurd h (by simpa using hd)
      · simp [NsConfDir.new, hd, h]
  have hnew : NetNs.new name env w =
      ((if env.dryrun then [] else [Act.mkdirAct (nsPath name)]) ++
         [Act.runAct (nsAddArgv name)] ++ [Act.runAct (loUpArgv name)] ++
         run_ignore_failure (nsDelArgv name) (w.nsDelOk name) ++
         NsConfDir.drop ⟨nsPath name⟩ env w,
       Except.error (HLErr.unsuccessfulChild (loUpArgv name))) := by
    rw [NetNs.new, hcd]
    simp [run, h2, h3]
  have hrif : ∃ d, run_ignore_failure (nsDelArgv name) (w.nsDelOk name) =
      Act.runAct (nsDelArgv name) :: d ∧ Act.rmdirAct (nsPath name) ∉ d := by
    by_cases hdel : w.nsDelOk name <;>
      simp [run_ignore_failure, run, hdel]
  obtain ⟨d, hd1, _⟩ := hrif
  refine ⟨by rw [hnew], ?_⟩
  refine ⟨(if env.dryrun then [] else [Act.mkdirAct (nsPath name)]) ++
      [Act.runAct (nsAddArgv name)] ++ [Act.runAct (loUpArgv name)],
    d ++ NsConfDir.drop ⟨nsPath name⟩ env w, ?_, ?_⟩
  · rw [hnew]
    simp [hd1]
  · intro hnd
    simp [NsConfDir.drop, hnd]
    by_cases hrm : w.rmdirOk (nsPath name) <;> simp [hrm]

/-- Witness for C3 at a concrete input: loopback-up fails for `b_ns0`
with everything else healthy. -/
theorem c3_loopback_failure_compensated_witness :
    (NetNs.new "b_ns0" env0
        { allOkWorld with loUpOk := fun _ => false }).2 =
      Except.error (HLErr.unsuccessfulChild (loUpArgv "b_ns0")) ∧
    (∃ t1 t2, (NetNs.new "b_ns0" env0
        { allOkWorld with loUpOk := fun _ => false }).1 =
        t1 ++ Act.runAct (nsDelArgv "b_ns0") :: t2 ∧
        (env0.dryrun = false → Act.rmdirAct (nsPath "b_ns0") ∈ t2)) :=
  c3_loopback_failure_compensated "b_ns0" env0
    { allOkWorld with loUpOk := fun _ => false }
    (Or.inr rfl) rfl rfl

/-- A world in which the first pid enumeration of a teardown fails and
everything else succeeds. -/
def enumFailWorld : SysWorld :=
  { allOkWorld with
    pids1 := fun n => Except.error (HLErr.unsuccessfulChild (nsPidsArgv n)) }

/-- C4 counterexample: in a destruction run whose first teardown step
(the resident-pid enumeration) fails, the grace wait, the terminate and
kill requests and the re-enumeration do NOT execute — the whole trace is
the failed enumeration (logged), interface-down, namespace delete and
directory removal — refuting the claim that every teardown step executes
unconditionally even if an earlier step failed. -/
theorem c4_unconditional_steps_counterexample :
    NetNs.drop ⟨"c_ns0", ⟨nsPath "c_ns0"⟩⟩ env0 enumFailWorld =
      [Act.runAct (nsPidsArgv "c_ns0"), Act.errLine,
       Act.runAct (loDownArgv "c_ns0"), Act.runAct (nsDelArgv "c_ns0"),
       Act.rmdirAct (nsPath "c_ns0")] ∧
    Act.sleepAct 5 ∉ NetNs.drop ⟨"c_ns0", ⟨nsPath "c_ns0"⟩⟩ env0 enumFailWorld := by
  constructor
  · rfl
  · decide

/-- No error line is emitted inside the kill routine itself; its failures
propagate to the destructor, which logs them. -/
theorem kill_routine_no_errline (ns : NetNs) (w : SysWorld) :
    Act.errLine ∉ (ns.kill_processes_in_namespace w).1 := by
  rw [NetNs.kill_processes_in_namespace]
  cases h1 : w.pids1 ns.name with
  | error e => simp [run_get_output_pids]
  | ok ps =>
      by_cases hps : ps = []
      · simp [run_get_output_pids, hps]
      · cases h2 : w.pids2 ns.name with
        | error e => simp [run_get_output_pids, hps, h2, List.mem_map]
        | ok ps2 =>
            by_cases hps2 : ps2 = [] <;>
              simp [run_get_output_pids, hps, h2, hps2, List.mem_map]

/-- C4 amended: during destruction of an owned resource, the three
destructor phases — the resident-process kill routine, the best-effort
interface-down and namespace delete, and the directory removal — all
execute regardless of earlier failures, and every step failure is logged
to the error stream exactly once (the destructor returns nothing, so no
failure is propagated); within the kill routine, however, a failed pid
enumeration aborts that routine's remaining steps, its error being
logged by the destructor. -/
theorem c4_teardown_phases_amended :
    ∀ (ns : NetNs) (env : ChildEnv) (w : SysWorld),
      Act.runAct (loDownArgv ns.name) ∈ NetNs.drop ns env w ∧
      Act.runAct (nsDelArgv ns.name) ∈ NetNs.drop ns env w ∧
      (env.dryrun = false → Act.rmdirAct ns.confdir.path ∈ NetNs.drop ns env w) ∧
      (NetNs.drop ns env w).count Act.errLine =
        (match (ns.kill_processes_in_namespace w).2 with
         | Except.error _ => 1
         | Except.ok _ => 0) +
        ((if w.loDownOk ns.name then 0 else 1) +
         ((if w.nsDelOk ns.name then 0 else 1) +
          (if env.dryrun then 0
           else if w.rmdirOk ns.confdir.path then 0 else 1))) := by
  intro ns env w
  have hlo : run_ignore_failure (loDownArgv ns.name) (w.loDownOk ns.name) =
      Act.runAct (loDownArgv ns.name) ::
        (if w.loDownOk ns.name then [] else [Act.errLine]) := by
    by_cases h : w.loDownOk ns.name <;> simp [run_ignore_failure, run, h]
  have hdel : run_ignore_failure (nsDelArgv ns.name) (w.nsDelOk ns.name) =
      Act.runAct (nsDelArgv ns.name) ::
        (if w.nsDelOk ns.name then [] else [Act.errLine]) := by
    by_cases h : w.nsDelOk ns.name <;> simp [run_ignore_failure, run, h]
  have hkill0 : ((ns.kill_processes_in_namespace w).1).count Act.errLine = 0 :=
    List.count_eq_zero.mpr (kill_routine_no_errline ns w)
  have hdrop : NetNs.drop ns env w =
      ((ns.kill_processes_in_namespace w).1 ++
        (match (ns.kill_processes_in_namespace w).2 with
         | Except.error _ => [Act.errLine]
         | Except.ok _ => [])) ++
      run_ignore_failure (loDownArgv ns.name) (w.loDownOk ns.name) ++
      run_ignore_failure (nsDelArgv ns.name) (w.nsDelOk ns.name) ++
      ns.confdir.drop env w := by
    rw [NetNs.drop]
    rcases hkp : ns.kill_processes_in_namespace w with ⟨kt, kr⟩
    cases kr <;> simp
  rw [hdrop]
  refine ⟨?_, ?_, ?_, ?_⟩
  · rw [hlo]; simp
  · rw [hdel]; simp
  · intro hd
    have : Act.rmdirAct ns.confdir.path ∈ NsConfDir.drop ns.confdir env w := by
      by_cases hrm : w.rmdirOk ns.confdir.path <;>
        simp [NsConfDir.drop, hd, hrm]
    simp [this]
  · rw [hlo, hdel]
    simp only [List.count_append, hkill0]
    have h1 : (match (ns.kill_processes_in_namespace w).2 with
         | Except.error _ => [Act.errLine]
         | Except.ok _ => ([] : List Act)).count Act.errLine =
        (match (ns.kill_processes_in_namespace w).2 with
         | Except.error _ => 1
         | Except.ok _ => 0) := by
      cases (ns.kill_processes_in_namespace w).2 <;> simp
    have h2 : ∀ b : Bool, ((Act.runAct (loDownArgv ns.name) ::
        (if b then [] else [Act.errLine])) : List Act).count Act.errLine =
        (if b then 0 else 1) := by
      intro b; cases b <;> simp [List.count_cons]
    have h3 : ∀ b : Bool, ((Act.runAct (nsDelArgv ns.name) ::
        (if b then [] else [Act.errLine])) : List Act).count Act.errLine =
        (if b then 0 else 1) := by
      intro b; cases b <;> simp [List.count_cons]
    have h4 : (NsConfDir.drop ns.confdir env w).count Act.errLine =
        (if env.dryrun then 0
         else if w.rmdirOk ns.confdir.path then 0 else 1) := by
      by_cases hd : env.dryrun
      · simp [NsConfDir.drop, hd]
      · by_cases hrm : w.rmdirOk ns.confdir.path <;>
          simp [NsConfDir.drop, hd, hrm, List.count_cons]
    rw [h1, h2, h3, h4]
    omega

/-- Witness for C4's amended theorem at a concrete input: with a failing
interface-down and everything else healthy, the delete still runs and
exactly one error line is logged. -/
theorem c4_teardown_phases_amended_witness :
    Act.runAct (nsDelArgv "d_ns0") ∈
      NetNs.drop ⟨"d_ns0", ⟨nsPath "d_ns0"⟩⟩ env0
        { allOkWorld with loDownOk := fun _ => false } ∧
    (NetNs.drop ⟨"d_ns0", ⟨nsPath "d_ns0"⟩⟩ env0
        { allOkWorld with loDownOk := fun _ => false }).count Act.errLine = 1 := by
  have h := c4_teardown_phases_amended ⟨"d_ns0", ⟨nsPath "d_ns0"⟩⟩ env0
    { allOkWorld with loDownOk := fun _ => false }
  exact ⟨h.2.1, by rw [h.2.2.2]; rfl⟩

/-! Evaluation lemmas for the trace extractors on each action shape. -/

@[simp] theorem isNsAdd_on_add (n : String) :
    isNsAdd (Act.runAct (nsAddArgv n)) = some n := rfl
@[simp] theorem isNsAdd_on_loUp (n : String) :
    isNsAdd (Act.runAct (loUpArgv n)) = none := rfl
@[simp] theorem isNsAdd_on_loDown (n : String) :
    isNsAdd (Act.runAct (loDownArgv n)) = none := rfl
@[simp] theorem isNsAdd_on_del (n : String) :
    isNsAdd (Act.runAct (nsDelArgv n)) = none := rfl
@[simp] theorem isNsAdd_on_pids (n : String) :
    isNsAdd (Act.runAct (nsPidsArgv n)) = none := rfl
@[simp] theorem isNsAdd_on_mkdir (p : String) :
    isNsAdd (Act.mkdirAct p) = none := rfl
@[simp] theorem isNsAdd_on_term (p : Int) : isNsAdd (Act.termAct p) = none := rfl
@[simp] theorem isNsAdd_on_kill (p : Int) : isNsAdd (Act.killAct p) = none := rfl
@[simp] theorem isNsAdd_on_sleep (s : Nat) : isNsAdd (Act.sleepAct s) = none := rfl
@[simp] theorem isNsAdd_on_rmdir (p : String) :
    isNsAdd (Act.rmdirAct p) = none := rfl
@[simp] theorem isNsAdd_on_outLine (s : String) :
    isNsAdd (Act.outLine s) = none := rfl
@[simp] theorem isNsAdd_on_closeOut : isNsAdd Act.closeOutAct = none := rfl
@[simp] theorem isNsAdd_on_errLine : isNsAdd Act.errLine = none := rfl

@[simp] theorem isNsDel_on_add (n : String) :
    isNsDel (Act.runAct (nsAddArgv n)) = none := rfl
@[simp] theorem isNsDel_on_loUp (n : String) :
    isNsDel (Act.runAct (loUpArgv n)) = none := rfl
@[simp] theorem isNsDel_on_loDown (n : String) :
    isNsDel (Act.runAct (loDownArgv n)) = none := rfl
@[simp] theorem isNsDel_on_del (n : String) :
    isNsDel (Act.runAct (nsDelArgv n)) = some n := rfl
@[simp] theorem isNsDel_on_pids (n : String) :
    isNsDel (Act.runAct (nsPidsArgv n)) = none := rfl
@[simp] theorem isNsDel_on_mkdir (p : String) :
    isNsDel (Act.mkdirAct p) = none := rfl
@[simp] theorem isNsDel_on_term (p : Int) : isNsDel (Act.termAct p) = none := rfl
@[simp] theorem isNsDel_on_kill (p : Int) : isNsDel (Act.killAct p) = none := rfl
@[simp] theorem isNsDel_on_sleep (s : Nat) : isNsDel (Act.sleepAct s) = none := rfl
@[simp] theorem isNsDel_on_rmdir (p : String) :
    isNsDel (Act.rmdirAct p) = none := rfl
@[simp] theorem isNsDel_on_outLine (s : String) :
    isNsDel (Act.outLine s) = none := rfl
@[simp] theorem isNsDel_on_closeOut : isNsDel Act.closeOutAct = none := rfl
@[simp] theorem isNsDel_on_errLine : isNsDel Act.errLine = none := rfl

@[simp] theorem isStdoutAct_on_run (argv : List String) :
    isStdoutAct (Act.runAct argv) = false := rfl
@[simp] theorem isStdoutAct_on_mkdir (p : String) :
    isStdoutAct (Act.mkdirAct p) = false := rfl
@[simp] theorem isStdoutAct_on_term (p : Int) :
    isStdoutAct (Act.termAct p) = false := rfl
@[simp] theorem isStdoutAct_on_kill (p : Int) :
    isStdoutAct (Act.killAct p) = false := rfl
@[simp] theorem isStdoutAct_on_sleep (s : Nat) :
    isStdoutAct (Act.sleepAct s) = false := rfl
@[simp] theorem isStdoutAct_on_rmdir (p : String) :
    isStdoutAct (Act.rmdirAct p) = false := rfl
@[simp] theorem isStdoutAct_on_outLine (s : String) :
    isStdoutAct (Act.outLine s) = true := rfl
@[simp] theorem isStdoutAct_on_closeOut : isStdoutAct Act.closeOutAct = true := rfl
@[simp] theorem isStdoutAct_on_errLine : isStdoutAct Act.errLine = false := rfl

@[simp] theorem addOrder_nil : addOrder [] = [] := rfl
@[simp] theorem delOrder_nil : delOrder [] = [] := rfl
@[simp] theorem stdoutTrace_nil : stdoutTrace [] = [] := rfl

theorem addOrder_append (s t : List Act) :
    addOrder (s ++ t) = addOrder s ++ addOrder t := by
  simp [addOrder]

theorem delOrder_append (s t : List Act) :
    delOrder (s ++ t) = delOrder s ++ delOrder t := by
  simp [delOrder]

theorem stdoutTrace_append (s t : List Act) :
    stdoutTrace (s ++ t) = stdoutTrace s ++ stdoutTrace t := by
  simp [stdoutTrace]

@[simp] theorem addOrder_termActs (ps : List Int) :
    addOrder (ps.map Act.termAct) = [] := by
  simp [addOrder]

@[simp] theorem addOrder_killActs (ps : List Int) :
    addOrder (ps.map Act.killAct) = [] := by
  simp [addOrder]

@[simp] theorem delOrder_termActs (ps : List Int) :
    delOrder (ps.map Act.termAct) = [] := by
  simp [delOrder]

@[simp] theorem delOrder_killActs (ps : List Int) :
    delOrder (ps.map Act.killAct) = [] := by
  simp [delOrder]

@[simp] theorem stdoutTrace_termActs (ps : List Int) :
    stdoutTrace (ps.map Act.termAct) = [] := by
  simp [stdoutTrace]

@[simp] theorem stdoutTrace_killActs (ps : List Int) :
    stdoutTrace (ps.map Act.killAct) = [] := by
  simp [stdoutTrace]

@[simp] theorem addOrder_cons_err (t : List Act) :
    addOrder (Act.errLine :: t) = addOrder t := by
  simp [addOrder, List.filterMap_cons]

@[simp] theorem delOrder_cons_err (t : List Act) :
    delOrder (Act.errLine :: t) = delOrder t := by
  simp [delOrder, List.filterMap_cons]

@[simp] theorem stdoutTrace_cons_err (t : List Act) :
    stdoutTrace (Act.errLine :: t) = stdoutTrace t := by
  simp [stdoutTrace, List.filter_cons]

@[simp] theorem addOrder_cons_add (n : String) (t : List Act) :
    addOrder (Act.runAct (nsAddArgv n) :: t) = n :: addOrder t := by
  simp [addOrder, List.filterMap_cons]
@[simp] theorem addOrder_cons_loUp (n : String) (t : List Act) :
    addOrder (Act.runAct (loUpArgv n) :: t) = addOrder t := by
  simp [addOrder, List.filterMap_cons]
@[simp] theorem addOrder_cons_loDown (n : String) (t : List Act) :
    addOrder (Act.runAct (loDownArgv n) :: t) = addOrder t := by
  simp [addOrder, List.filterMap_cons]
@[simp] theorem addOrder_cons_del (n : String) (t : List Act) :
    addOrder (Act.runAct (nsDelArgv n) :: t) = addOrder t := by
  simp [addOrder, List.filterMap_cons]
@[simp] theorem addOrder_cons_pids (n : String) (t : List Act) :
    addOrder (Act.runAct (nsPidsArgv n) :: t) = addOrder t := by
  simp [addOrder, List.filterMap_cons]
@[simp] theorem addOrder_cons_mkdir (p : String) (t : List Act) :
    addOrder (Act.mkdirAct p :: t) = addOrder t := by
  simp [addOrder, List.filterMap_cons]
@[simp] theorem addOrder_cons_rmdir (p : String) (t : List Act) :
    addOrder (Act.rmdirAct p :: t) = addOrder t := by
  simp [addOrder, List.filterMap_cons]
@[simp] theorem addOrder_cons_outLine (s : String) (t : List Act) :
    addOrder (Act.outLine s :: t) = addOrder t := by
  simp [addOrder, List.filterMap_cons]
@[simp] theorem addOrder_cons_closeOut (t : List Act) :
    addOrder (Act.closeOutAct :: t) = addOrder t := by
  simp [addOrder, List.filterMap_cons]
@[simp] theorem addOrder_cons_term (p : Int) (t : List Act) :
    addOrder (Act.termAct p :: t) = addOrder t := by
  simp [addOrder, List.filterMap_cons]
@[simp] theorem addOrder_cons_kill (p : Int) (t : List Act) :
    addOrder (Act.killAct p :: t) = addOrder t := by
  simp [addOrder, List.filterMap_cons]
@[simp] theorem addOrder_cons_sleep (s : Nat) (t : List Act) :
    addOrder (Act.sleepAct s :: t) = addOrder t := by
  simp [addOrder, List.filterMap_cons]

@[simp] theorem delOrder_cons_add (n : String) (t : List Act) :
    delOrder (Act.runAct (nsAddArgv n) :: t) = delOrder t := by
  simp [delOrder, List.filterMap_cons]
@[simp] theorem delOrder_cons_loUp (n : String) (t : List Act) :
    delOrder (Act.runAct (loUpArgv n) :: t) = delOrder t := by
  simp [delOrder, List.filterMap_cons]
@[simp] theorem delOrder_cons_loDown (n : String) (t : List Act) :
    delOrder (Act.runAct (loDownArgv n) :: t) = delOrder t := by
  simp [delOrder, List.filterMap_cons]
@[simp] theorem delOrder_cons_del (n : String) (t : List Act) :
    delOrder (Act.runAct (nsDelArgv n) :: t) = n :: delOrder t := by
  simp [delOrder, List.filterMap_cons]
@[simp] theorem delOrder_cons_pids (n : String) (t : List Act) :
    delOrder (Act.runAct (nsPidsArgv n) :: t) = delOrder t := by
  simp [delOrder, List.filterMap_cons]
@[simp] theorem delOrder_cons_mkdir (p : String) (t : List Act) :
    delOrder (Act.mkdirAct p :: t) = delOrder t := by
  simp [delOrder, List.filterMap_cons]
@[simp] theorem delOrder_cons_rmdir (p : String) (t : List Act) :
    delOrder (Act.rmdirAct p :: t) = delOrder t := by
  simp [delOrder, List.filterMap_cons]
@[simp] theorem delOrder_cons_outLine (s : String) (t : List Act) :
    delOrder (Act.outLine s :: t) = delOrder t := by
  simp [delOrder, List.filterMap_cons]
@[simp] theorem delOrder_cons_closeOut (t : List Act) :
    delOrder (Act.closeOutAct :: t) = delOrder t := by
  simp [delOrder, List.filterMap_cons]
@[simp] theorem delOrder_cons_term (p : Int) (t : List Act) :
    delOrder (Act.termAct p :: t) = delOrder t := by
  simp [delOrder, List.filterMap_cons]
@[simp] theorem delOrder_cons_kill (p : Int) (t : List Act) :
    delOrder (Act.killAct p :: t) = delOrder t := by
  simp [delOrder, List.filterMap_cons]
@[simp] theorem delOrder_cons_sleep (s : Nat) (t : List Act) :
    delOrder (Act.sleepAct s :: t) = delOrder t := by
  simp [delOrder, List.filterMap_cons]

@[simp] theorem stdoutTrace_cons_run (argv : List String) (t : List Act) :
    stdoutTrace (Act.runAct argv :: t) = stdoutTrace t := by
  simp [stdoutTrace, List.filter_cons]
@[simp] theorem stdoutTrace_cons_mkdir (p : String) (t : List Act) :
    stdoutTrace (Act.mkdirAct p :: t) = stdoutTrace t := by
  simp [stdoutTrace, List.filter_cons]
@[simp] theorem stdoutTrace_cons_rmdir (p : String) (t : List Act) :
    stdoutTrace (Act.rmdirAct p :: t) = stdoutTrace t := by
  simp [stdoutTrace, List.filter_cons]
@[simp] theorem stdoutTrace_cons_outLine (s : String) (t : List Act) :
    stdoutTrace (Act.outLine s :: t) = Act.outLine s :: stdoutTrace t := by
  simp [stdoutTrace, List.filter_cons]
@[simp] theorem stdoutTrace_cons_closeOut (t : List Act) :
    stdoutTrace (Act.closeOutAct :: t) = Act.closeOutAct :: stdoutTrace t := by
  simp [stdoutTrace, List.filter_cons]
@[simp] theorem stdoutTrace_cons_term (p : Int) (t : List Act) :
    stdoutTrace (Act.termAct p :: t) = stdoutTrace t := by
  simp [stdoutTrace, List.filter_cons]
@[simp] theorem stdoutTrace_cons_kill (p : Int) (t : List Act) :
    stdoutTrace (Act.killAct p :: t) = stdoutTrace t := by
  simp [stdoutTrace, List.filter_cons]
@[simp] theorem stdoutTrace_cons_sleep (s : Nat) (t : List Act) :
    stdoutTrace (Act.sleepAct s :: t) = stdoutTrace t := by
  simp [stdoutTrace, List.filter_cons]

/-- `NsConfDir::new` under a successful (or dry-run) mkdir. -/
theorem nsconfdir_new_ok (name : String) (env : ChildEnv) (w : SysWorld)
    (h1 : env.dryrun = true ∨ w.mkdirOk (nsPath name) = true) :
    NsConfDir.new name env w =
      ((if env.dryrun then [] else [Act.mkdirAct (nsPath name)]),
       Except.ok ⟨nsPath name⟩) := by
  by_cases hd : env.dryrun
  · simp [NsConfDir.new, hd]
  · rcases h1 with h | h
    · exact absurd h (by simpa using hd)
    · simp [NsConfDir.new, hd, h]

/-- `NetNs::new` under fully successful construction steps. -/
theorem netns_new_ok (name : String) (env : ChildEnv) (w : SysWorld)
    (h1 : env.dryrun = true ∨ w.mkdirOk (nsPath name) = true)
    (h2 : w.nsAddOk name = true) (h3 : w.loUpOk name = true) :
    NetNs.new name env w =
      ((if env.dryrun then [] else [Act.mkdirAct (nsPath name)]) ++
         [Act.runAct (nsAddArgv name), Act.runAct (loUpArgv name)],
       Except.ok ⟨name, ⟨nsPath name⟩⟩) := by
  rw [NetNs.new, nsconfdir_new_ok name env w h1]
  simp [run, h2, h3]

theorem addOrder_new_ok_trace (env : ChildEnv) (name : String) :
    addOrder ((if env.dryrun then [] else [Act.mkdirAct (nsPath name)]) ++
      [Act.runAct (nsAddArgv name), Act.runAct (loUpArgv name)]) = [name] := by
  by_cases hd : env.dryrun <;>
    simp [hd, addOrder, List.filterMap_cons]

theorem delOrder_new_ok_trace (env : ChildEnv) (name : String) :
    delOrder ((if env.dryrun then [] else [Act.mkdirAct (nsPath name)]) ++
      [Act.runAct (nsAddArgv name), Act.runAct (loUpArgv name)]) = [] := by
  by_cases hd : env.dryrun <;>
    simp [hd, delOrder, List.filterMap_cons]

theorem stdoutTrace_new_ok_trace (env : ChildEnv) (name : String) :
    stdoutTrace ((if env.dryrun then [] else [Act.mkdirAct (nsPath name)]) ++
      [Act.runAct (nsAddArgv name), Act.runAct (loUpArgv name)]) = [] := by
  by_cases hd : env.dryrun <;>
    simp [hd, stdoutTrace, List.filter_cons]

/-- Trace extraction for the kill routine: it never invokes `ip netns
add` or `ip netns del` and writes nothing to stdout. -/
theorem extract_kill_trace (ns : NetNs) (w : SysWorld) :
    addOrder (ns.kill_processes_in_namespace w).1 = [] ∧
    delOrder (ns.kill_processes_in_namespace w).1 = [] ∧
    stdoutTrace (ns.kill_processes_in_namespace w).1 = [] := by
  rw [NetNs.kill_processes_in_namespace]
  cases h1 : w.pids1 ns.name with
  | error e =>
      simp [run_get_output_pids, addOrder, delOrder, stdoutTrace,
        List.filterMap_cons, List.filter_cons]
  | ok ps =>
      by_cases hps : ps = []
      · simp [run_get_output_pids, hps, addOrder, delOrder, stdoutTrace,
          List.filterMap_cons, List.filter_cons]
      · cases h2 : w.pids2 ns.name with
        | error e =>
            simp [run_get_output_pids, hps, addOrder_append, delOrder_append,
              stdoutTrace_append, addOrder, delOrder, stdoutTrace,
              List.filterMap_cons, List.filter_cons]
        | ok ps2 =>
            by_cases hps2 : ps2 = [] <;>
              simp [run_get_output_pids, hps, hps2, addOrder_append,
                delOrder_append, stdoutTrace_append, addOrder, delOrder,
                stdoutTrace, List.filterMap_cons, List.filter_cons]

/-- Trace extraction for the destructor of one namespace: exactly one
`ip netns del` (its own), no `ip netns add`, nothing on stdout. -/
theorem extract_drop_trace (ns : NetNs) (env : ChildEnv) (w : SysWorld) :
    addOrder (ns.drop env w) = [] ∧
    delOrder (ns.drop env w) = [ns.name] ∧
    stdoutTrace (ns.drop env w) = [] := by
  obtain ⟨hka, hkd, hks⟩ := extract_kill_trace ns w
  rcases hkp : ns.kill_processes_in_namespace w with ⟨kt, kr⟩
  rw [hkp] at hka hkd hks
  simp only at hka hkd hks
  have hLo : addOrder (run_ignore_failure (loDownArgv ns.name) (w.loDownOk ns.name)) = [] ∧
      delOrder (run_ignore_failure (loDownArgv ns.name) (w.loDownOk ns.name)) = [] ∧
      stdoutTrace (run_ignore_failure (loDownArgv ns.name) (w.loDownOk ns.name)) = [] := by
    by_cases h : w.loDownOk ns.name <;>
      simp [run_ignore_failure, run, h, addOrder, delOrder, stdoutTrace,
        List.filterMap_cons, List.filter_cons]
  have hDel : addOrder (run_ignore_failure (nsDelArgv ns.name) (w.nsDelOk ns.name)) = [] ∧
      delOrder (run_ignore_failure (nsDelArgv ns.name) (w.nsDelOk ns.name)) = [ns.name] ∧
      stdoutTrace (run_ignore_failure (nsDelArgv ns.name) (w.nsDelOk ns.name)) = [] := by
    by_cases h : w.nsDelOk ns.name <;>
      simp [run_ignore_failure, run, h, addOrder, delOrder, stdoutTrace,
        List.filterMap_cons, List.filter_cons]
  have hC : addOrder (NsConfDir.drop ns.confdir env w) = [] ∧
      delOrder (NsConfDir.drop ns.confdir env w) = [] ∧
      stdoutTrace (NsConfDir.drop ns.confdir env w) = [] := by
    by_cases h7 : env.dryrun <;> by_cases h8 : w.rmdirOk ns.confdir.path <;>
      simp [NsConfDir.drop, h7, h8, addOrder, delOrder, stdoutTrace,
        List.filterMap_cons, List.filter_cons]
  cases kr with
  | ok u =>
      have hbody : ns.drop env w = kt ++
          run_ignore_failure (loDownArgv ns.name) (w.loDownOk ns.name) ++
          run_ignore_failure (nsDelArgv ns.name) (w.nsDelOk ns.name) ++
          NsConfDir.drop ns.confdir env w := by
        rw [NetNs.drop, hkp]
      rw [hbody]
      refine ⟨?_, ?_, ?_⟩ <;>
        simp [addOrder_append, delOrder_append, stdoutTrace_append,
          hka, hkd, hks, hLo.1, hLo.2.1, hLo.2.2, hDel.1, hDel.2.1, hDel.2.2,
          hC.1, hC.2.1, hC.2.2]
  | error e =>
      have hbody : ns.drop env w = (kt ++ [Act.errLine]) ++
          run_ignore_failure (loDownArgv ns.name) (w.loDownOk ns.name) ++
          run_ignore_failure (nsDelArgv ns.name) (w.nsDelOk ns.name) ++
          NsConfDir.drop ns.confdir env w := by
        rw [NetNs.drop, hkp]
      rw [hbody]
      have he : addOrder [Act.errLine] = [] ∧ delOrder [Act.errLine] = [] ∧
          stdoutTrace [Act.errLine] = [] := ⟨rfl, rfl, rfl⟩
      refine ⟨?_, ?_, ?_⟩ <;>
        simp [addOrder_append, delOrder_append, stdoutTrace_append,
          hka, hkd, hks, he.1, he.2.1, he.2.2,
          hLo.1, hLo.2.1, hLo.2.2, hDel.1, hDel.2.1, hDel.2.2,
          hC.1, hC.2.1, hC.2.2]

/-- Trace extraction for dropping a whole `Vec<NetNs>`: the deletions
happen in the order of the vector, i.e. in creation order. -/
theorem extract_dropVec_trace (nsps : List NetNs) (env : ChildEnv) (w : SysWorld) :
    addOrder (dropVec nsps env w) = [] ∧
    delOrder (dropVec nsps env w) = nsps.map (fun ns => ns.name) ∧
    stdoutTrace (dropVec nsps env w) = [] := by
  induction nsps with
  | nil => exact ⟨rfl, rfl, rfl⟩
  | cons ns nsps ih =>
      obtain ⟨h1, h2, h3⟩ := extract_drop_trace ns env w
      have hd : dropVec (ns :: nsps) env w = ns.drop env w ++ dropVec nsps env w := by
        simp [dropVec]
      rw [hd]
      simp [addOrder_append, delOrder_append, stdoutTrace_append,
        h1, h2, h3, ih.1, ih.2.1, ih.2.2]

theorem extract_rif_del (n : String) (ok : Bool) :
    addOrder (run_ignore_failure (nsDelArgv n) ok) = [] ∧
    delOrder (run_ignore_failure (nsDelArgv n) ok) = [n] ∧
    stdoutTrace (run_ignore_failure (nsDelArgv n) ok) = [] := by
  cases ok <;>
    simp [run_ignore_failure, run, addOrder, delOrder, stdoutTrace,
      List.filterMap_cons, List.filter_cons]

theorem extract_confdir_drop (d : NsConfDir) (env : ChildEnv) (w : SysWorld) :
    addOrder (d.drop env w) = [] ∧
    delOrder (d.drop env w) = [] ∧
    stdoutTrace (d.drop env w) = [] := by
  by_cases h7 : env.dryrun <;> by_cases h8 : w.rmdirOk d.path <;>
    simp [NsConfDir.drop, h7, h8, addOrder, delOrder, stdoutTrace,
      List.filterMap_cons, List.filter_cons]

/-- Shifting a map over `List.range (n+1)` by peeling the first index. -/
theorem range_shift_map {α : Type} (g : Nat → α) (n i : Nat) :
    (List.range (n + 1)).map (fun j => g (i + j)) =
      g i :: (List.range n).map (fun j => g (i + 1 + j)) := by
  rw [List.range_succ_eq_map, List.map_cons, List.map_map, Nat.add_zero]
  congr 1
  apply List.map_congr_left
  intro a _
  show g (i + (a + 1)) = g (i + 1 + a)
  congr 1
  omega

theorem range_shift_name (pfx : String) (n i : Nat) :
    (List.range (n + 1)).map (fun j => mkNsName pfx (i + j)) =
      mkNsName pfx i :: (List.range n).map (fun j => mkNsName pfx (i + 1 + j)) :=
  range_shift_map (fun m => mkNsName pfx m) n i

theorem range_shift_ns (pfx : String) (n i : Nat) :
    (List.range (n + 1)).map
        (fun j => (⟨mkNsName pfx (i + j), ⟨nsPath (mkNsName pfx (i + j))⟩⟩ : NetNs)) =
      (⟨mkNsName pfx i, ⟨nsPath (mkNsName pfx i)⟩⟩ : NetNs) ::
        (List.range n).map
          (fun j => (⟨mkNsName pfx (i + 1 + j), ⟨nsPath (mkNsName pfx (i + 1 + j))⟩⟩ : NetNs)) :=
  range_shift_map (fun m => (⟨mkNsName pfx m, ⟨nsPath (mkNsName pfx m)⟩⟩ : NetNs)) n i

theorem range_shift_outLine (pfx : String) (n i : Nat) :
    (List.range (n + 1)).map (fun j => Act.outLine (mkNsName pfx (i + j))) =
      Act.outLine (mkNsName pfx i) ::
        (List.range n).map (fun j => Act.outLine (mkNsName pfx (i + 1 + j))) :=
  range_shift_map (fun m => Act.outLine (mkNsName pfx m)) n i

/-- Full success of the three construction steps of one namespace. -/
def creationOk (env : ChildEnv) (w : SysWorld) (name : String) : Prop :=
  (env.dryrun = true ∨ w.mkdirOk (nsPath name) = true) ∧
  w.nsAddOk name = true ∧ w.loUpOk name = true

/-- A failed construction returns an error (no owned value), attempts at
most the `ip netns add` whose namespace failed, deletes that namespace
again only in the loopback-failure case, and writes nothing to stdout. -/
theorem netns_new_fail (name : String) (env : ChildEnv) (w : SysWorld)
    (h : ¬ creationOk env w name) :
    (∃ e, (NetNs.new name env w).2 = Except.error e) ∧
    ∃ ea ed, (ea = [] ∨ ea = [name]) ∧ (ed = [] ∨ ed = [name]) ∧
      addOrder (NetNs.new name env w).1 = ea ∧
      delOrder (NetNs.new name env w).1 = ed ∧
      stdoutTrace (NetNs.new name env w).1 = [] := by
  by_cases h1 : env.dryrun = true ∨ w.mkdirOk (nsPath name) = true
  · by_cases h2 : w.nsAddOk name = true
    · by_cases h3 : w.loUpOk name = true
      · exact absurd ⟨h1, h2, h3⟩ h
      · have h3f : w.loUpOk name = false := by simpa using h3
        have hnew : NetNs.new name env w =
            ((if env.dryrun then [] else [Act.mkdirAct (nsPath name)]) ++
               [Act.runAct (nsAddArgv name)] ++ [Act.runAct (loUpArgv name)] ++
               run_ignore_failure (nsDelArgv name) (w.nsDelOk name) ++
               NsConfDir.drop ⟨nsPath name⟩ env w,
             Except.error (HLErr.unsuccessfulChild (loUpArgv name))) := by
          rw [NetNs.new, nsconfdir_new_ok name env w h1]
          simp [run, h2, h3f]
        obtain ⟨hr1, hr2, hr3⟩ := extract_rif_del name (w.nsDelOk name)
        obtain ⟨hc1, hc2, hc3⟩ := extract_confdir_drop ⟨nsPath name⟩ env w
        refine ⟨⟨_, by rw [hnew]⟩, [name], [name], Or.inr rfl, Or.inr rfl,
          ?_, ?_, ?_⟩ <;>
        · rw [hnew]
          by_cases hd : env.dryrun <;>
            simp [hd, addOrder_append, delOrder_append, stdoutTrace_append,
              hr1, hr2, hr3, hc1, hc2, hc3]
    · have h2f : w.nsAddOk name = false := by simpa using h2
      have hnew : NetNs.new name env w =
          ((if env.dryrun then [] else [Act.mkdirAct (nsPath name)]) ++
             [Act.runAct (nsAddArgv name)] ++ NsConfDir.drop ⟨nsPath name⟩ env w,
           Except.error (HLErr.unsuccessfulChild (nsAddArgv name))) := by
        rw [NetNs.new, nsconfdir_new_ok name env w h1]
        simp [run, h2f]
      obtain ⟨hc1, hc2, hc3⟩ := extract_confdir_drop ⟨nsPath name⟩ env w
      refine ⟨⟨_, by rw [hnew]⟩, [name], [], Or.inr rfl, Or.inl rfl,
        ?_, ?_, ?_⟩ <;>
      · rw [hnew]
        by_cases hd : env.dryrun <;>
          simp [hd, addOrder_append, delOrder_append, stdoutTrace_append,
            hc1, hc2, hc3]
  · have hd : env.dryrun = false := by
      rcases Bool.eq_false_or_eq_true env.dryrun with hb | hb
      · exact absurd (Or.inl hb) h1
      · exact hb
    have hm : w.mkdirOk (nsPath name) = false := by
      rcases Bool.eq_false_or_eq_true (w.mkdirOk (nsPath name)) with hb | hb
      · exact absurd (Or.inr hb) h1
      · exact hb
    have hnew : NetNs.new name env w =
        ([Act.mkdirAct (nsPath name)],
         Except.error (HLErr.ioError (nsPath name))) := by
      rw [NetNs.new]
      simp [NsConfDir.new, hd, hm]
    refine ⟨⟨_, by rw [hnew]⟩, [], [], Or.inl rfl, Or.inl rfl, ?_, ?_, ?_⟩ <;>
      rw [hnew] <;> rfl

/-- The creation loop under fully successful steps: one namespace per
index in ascending order, one stdout line each, stdout closed at the
end, no deletions. -/
theorem create_loop_ok :
    ∀ (rem i : Nat) (acc : List NetNs) (pfx : String) (env : ChildEnv)
      (w : SysWorld),
      (∀ j, j < rem → creationOk env w (mkNsName pfx (i + j))) →
      (create_loop pfx env w i rem acc).2 =
        Except.ok (acc ++ (List.range rem).map
          (fun j => (⟨mkNsName pfx (i + j),
            ⟨nsPath (mkNsName pfx (i + j))⟩⟩ : NetNs))) ∧
      addOrder (create_loop pfx env w i rem acc).1 =
        (List.range rem).map (fun j => mkNsName pfx (i + j)) ∧
      delOrder (create_loop pfx env w i rem acc).1 = [] ∧
      stdoutTrace (create_loop pfx env w i rem acc).1 =
        (List.range rem).map (fun j => Act.outLine (mkNsName pfx (i + j))) ++
          [Act.closeOutAct] := by
  intro rem
  induction rem with
  | zero =>
      intro i acc pfx env w _
      exact ⟨by simp [create_loop], rfl, rfl, rfl⟩
  | succ rem ih =>
      intro i acc pfx env w hok
      have h0 : creationOk env w (mkNsName pfx i) := by
        have := hok 0 (Nat.succ_pos rem)
        rwa [Nat.add_zero] at this
      obtain ⟨ha, hb, hc⟩ := h0
      have hnew := netns_new_ok (mkNsName pfx i) env w ha hb hc
      have hshift : ∀ j, j < rem → creationOk env w (mkNsName pfx (i + 1 + j)) := by
        intro j hj
        have := hok (j + 1) (Nat.succ_lt_succ hj)
        rwa [show i + (j + 1) = i + 1 + j from by omega] at this
      obtain ⟨r2, ra, rd, rs⟩ := ih (i + 1)
        (acc ++ [⟨mkNsName pfx i, ⟨nsPath (mkNsName pfx i)⟩⟩]) pfx env w hshift
      have hbody : create_loop pfx env w i (rem + 1) acc =
          ((if env.dryrun then [] else [Act.mkdirAct (nsPath (mkNsName pfx i))]) ++
             [Act.runAct (nsAddArgv (mkNsName pfx i)),
              Act.runAct (loUpArgv (mkNsName pfx i))] ++
             [Act.outLine (mkNsName pfx i)] ++
             (create_loop pfx env w (i + 1) rem
               (acc ++ [⟨mkNsName pfx i, ⟨nsPath (mkNsName pfx i)⟩⟩])).1,
           (create_loop pfx env w (i + 1) rem
               (acc ++ [⟨mkNsName pfx i, ⟨nsPath (mkNsName pfx i)⟩⟩])).2) := by
        rw [create_loop, hnew]
      rw [hbody]
      refine ⟨?_, ?_, ?_, ?_⟩
      · show (create_loop pfx env w (i + 1) rem _).2 = _
        rw [r2, range_shift_ns]
        simp
      · show addOrder _ = _
        rw [range_shift_name]
        by_cases hd : env.dryrun <;>
          simp [hd, addOrder_append, ra]
      · show delOrder _ = _
        by_cases hd : env.dryrun <;>
          simp [hd, delOrder_append, rd]
      · show stdoutTrace _ = _
        rw [range_shift_outLine]
        by_cases hd : env.dryrun <;>
          simp [hd, stdoutTrace_append, rs]

/-- The creation loop when step `k` is the first to fail: the error is
returned with no namespace list, creations 0..k-1 happened in order
(with at most an attempted `ip netns add` for the failing index), and
the already created namespaces are deleted in creation order (preceded
at most by the compensating deletion of the failing one). -/
theorem create_loop_fail :
    ∀ (k rem i : Nat) (acc : List NetNs) (pfx : String) (env : ChildEnv)
      (w : SysWorld),
      k < rem →
      (∀ j, j < k → creationOk env w (mkNsName pfx (i + j))) →
      ¬ creationOk env w (mkNsName pfx (i + k)) →
      (∃ e, (create_loop pfx env w i rem acc).2 = Except.error e) ∧
      ∃ ea ed, (ea = [] ∨ ea = [mkNsName pfx (i + k)]) ∧
        (ed = [] ∨ ed = [mkNsName pfx (i + k)]) ∧
        addOrder (create_loop pfx env w i rem acc).1 =
          (List.range k).map (fun j => mkNsName pfx (i + j)) ++ ea ∧
        delOrder (create_loop pfx env w i rem acc).1 =
          ed ++ (acc.map (fun ns => ns.name) ++
            (List.range k).map (fun j => mkNsName pfx (i + j))) := by
  intro k
  induction k with
  | zero =>
      intro rem i acc pfx env w hlt _ hfail
      match rem, hlt with
      | rem + 1, _ =>
        rw [Nat.add_zero] at hfail
        obtain ⟨⟨e, he⟩, ea, ed, hea, hed, hadd, hdel, _⟩ :=
          netns_new_fail (mkNsName pfx i) env w hfail
        rcases hnn : NetNs.new (mkNsName pfx i) env w with ⟨nt, nr⟩
        rw [hnn] at he hadd hdel
        simp only at he hadd hdel
        cases nr with
        | ok ns => exact absurd he (by simp)
        | error e2 =>
            have hbody : create_loop pfx env w i (rem + 1) acc =
                (nt ++ dropVec acc env w, Except.error e2) := by
              rw [create_loop, hnn]
            obtain ⟨hva, hvd, _⟩ := extract_dropVec_trace acc env w
            rw [hbody]
            refine ⟨⟨e2, rfl⟩, ea, ed, hea, hed, ?_, ?_⟩
            · simp [addOrder_append, hadd, hva]
            · simp [delOrder_append, hdel, hvd]
  | succ k ih =>
      intro rem i acc pfx env w hlt hok hfail
      match rem, hlt with
      | rem + 1, hlt =>
        have h0 : creationOk env w (mkNsName pfx i) := by
          have := hok 0 (Nat.succ_pos k)
          rwa [Nat.add_zero] at this
        obtain ⟨ha, hb, hc⟩ := h0
        have hnew := netns_new_ok (mkNsName pfx i) env w ha hb hc
        have hshift : ∀ j, j < k → creationOk env w (mkNsName pfx (i + 1 + j)) := by
          intro j hj
          have := hok (j + 1) (Nat.succ_lt_succ hj)
          rwa [show i + (j + 1) = i + 1 + j from by omega] at this
        have hfail2 : ¬ creationOk env w (mkNsName pfx (i + 1 + k)) := by
          rwa [show i + (k + 1) = i + 1 + k from by omega] at hfail
        obtain ⟨⟨e, he⟩, ea, ed, hea, hed, hadd, hdel⟩ :=
          ih rem (i + 1) (acc ++ [⟨mkNsName pfx i, ⟨nsPath (mkNsName pfx i)⟩⟩])
            pfx env w (Nat.lt_of_succ_lt_succ hlt) hshift hfail2
        have hbody : create_loop pfx env w i (rem + 1) acc =
            ((if env.dryrun then [] else [Act.mkdirAct (nsPath (mkNsName pfx i))]) ++
               [Act.runAct (nsAddArgv (mkNsName pfx i)),
                Act.runAct (loUpArgv (mkNsName pfx i))] ++
               [Act.outLine (mkNsName pfx i)] ++
               (create_loop pfx env w (i + 1) rem
                 (acc ++ [⟨mkNsName pfx i, ⟨nsPath (mkNsName pfx i)⟩⟩])).1,
             (create_loop pfx env w (i + 1) rem
                 (acc ++ [⟨mkNsName pfx i, ⟨nsPath (mkNsName pfx i)⟩⟩])).2) := by
          rw [create_loop, hnew]
        rw [hbody]
        have hshiftidx : i + 1 + k = i + (k + 1) := by omega
        refine ⟨⟨e, he⟩, ea, ed, ?_, ?_, ?_, ?_⟩
        · rwa [hshiftidx] at hea
        · rwa [hshiftidx] at hed
        · show addOrder _ = _
          rw [range_shift_name]
          by_cases hd : env.dryrun <;>
            simp [hd, addOrder_append, hadd, hshiftidx]
        · show delOrder _ = _
          rw [range_shift_name]
          by_cases hd : env.dryrun <;>
            simp [hd, delOrder_append, hdel, hshiftidx]

/-- C9: a fully successful setup of N resources writes exactly one stdout
line per created resource identifier, in creation order, and closes the
output stream immediately after the last line; nothing further is
written to that stream by the core afterwards (the teardown emits no
stdout action). -/
theorem c9_stdout_protocol :
    ∀ (pfx : String) (n : Nat) (env : ChildEnv) (w : SysWorld),
      (∀ j, j < n → creationOk env w (mkNsName pfx j)) →
      stdoutTrace (inner_main pfx n env w).1 =
        (List.range n).map (fun j => Act.outLine (mkNsName pfx j)) ++
          [Act.closeOutAct] := by
  intro pfx n env w hok
  have hok0 : ∀ j, j < n → creationOk env w (mkNsName pfx (0 + j)) := by
    intro j hj
    rw [Nat.zero_add]
    exact hok j hj
  obtain ⟨r2, ra, rd, rs⟩ := create_loop_ok n 0 [] pfx env w hok0
  rcases hcl : create_namespaces pfx n env w with ⟨t, r⟩
  have hloop : create_loop pfx env w 0 n [] = (t, r) := by
    rw [← hcl]; rfl
  rw [hloop] at r2 ra rd rs
  simp only at r2 ra rd rs
  have hmain : inner_main pfx n env w =
      (t ++ dropVec (([] : List NetNs) ++ (List.range n).map
        (fun j => (⟨mkNsName pfx (0 + j),
          ⟨nsPath (mkNsName pfx (0 + j))⟩⟩ : NetNs))) env w, 0) := by
    rw [inner_main, hcl, r2]
  rw [hmain]
  obtain ⟨-, -, hvs⟩ := extract_dropVec_trace _ env w
  simp only
  rw [stdoutTrace_append, rs, hvs]
  simp

/-- Witness for C9 at a concrete input: two namespaces under the all-ok
world produce their two lines followed by the stdout closing. -/
theorem c9_stdout_protocol_witness :
    stdoutTrace (inner_main "p" 2 env0 allOkWorld).1 =
      (List.range 2).map (fun j => Act.outLine (mkNsName "p" j)) ++
        [Act.closeOutAct] :=
  c9_stdout_protocol "p" 2 env0 allOkWorld
    (fun _ _ => ⟨Or.inr rfl, rfl, rfl⟩)

/-- C1 counterexample: a fully successful run that creates two
namespaces `p_ns0, p_ns1` tears them down in the order
`p_ns0, p_ns1` — the order of creation, because dropping a Rust
`Vec` drops elements front to back — and not in the exact reverse
`p_ns1, p_ns0` that the claim requires. -/
theorem c1_teardown_order_counterexample :
    addOrder (inner_main "p" 2 env0 allOkWorld).1 = ["p_ns0", "p_ns1"] ∧
    delOrder (inner_main "p" 2 env0 allOkWorld).1 = ["p_ns0", "p_ns1"] ∧
    delOrder (inner_main "p" 2 env0 allOkWorld).1 ≠
      (addOrder (inner_main "p" 2 env0 allOkWorld).1).reverse := by
  exact ⟨rfl, rfl, by decide⟩

/-- C1 amended: for every run that requests N resources, the namespaces
are created in ascending order 0..k-1 (k = N on success, the first
failing index otherwise, with at most an attempted creation of the
failing one), and all resources that reached the owned state are torn
down in the SAME order as their creation — front to back, the order in
which Rust drops a `Vec` — both when setup completes and when it fails
partway (in the loopback-failure case preceded by the compensating
deletion of the never-owned resource). -/
theorem c1_teardown_order_amended :
    (∀ (pfx : String) (n : Nat) (env : ChildEnv) (w : SysWorld),
      (∀ j, j < n → creationOk env w (mkNsName pfx j)) →
      addOrder (inner_main pfx n env w).1 =
        (List.range n).map (fun j => mkNsName pfx j) ∧
      delOrder (inner_main pfx n env w).1 =
        (List.range n).map (fun j => mkNsName pfx j)) ∧
    (∀ (pfx : String) (n k : Nat) (env : ChildEnv) (w : SysWorld),
      k < n →
      (∀ j, j < k → creationOk env w (mkNsName pfx j)) →
      ¬ creationOk env w (mkNsName pfx k) →
      ∃ ea ed, (ea = [] ∨ ea = [mkNsName pfx k]) ∧
        (ed = [] ∨ ed = [mkNsName pfx k]) ∧
        addOrder (inner_main pfx n env w).1 =
          (List.range k).map (fun j => mkNsName pfx j) ++ ea ∧
        delOrder (inner_main pfx n env w).1 =
          ed ++ (List.range k).map (fun j => mkNsName pfx j)) := by
  constructor
  · intro pfx n env w hok
    have hok0 : ∀ j, j < n → creationOk env w (mkNsName pfx (0 + j)) := by
      intro j hj
      rw [Nat.zero_add]
      exact hok j hj
    obtain ⟨r2, ra, rd, rs⟩ := create_loop_ok n 0 [] pfx env w hok0
    rcases hcl : create_namespaces pfx n env w with ⟨t, r⟩
    have hloop : create_loop pfx env w 0 n [] = (t, r) := by
      rw [← hcl]; rfl
    rw [hloop] at r2 ra rd rs
    simp only at r2 ra rd rs
    have hmain : inner_main pfx n env w =
        (t ++ dropVec (([] : List NetNs) ++ (List.range n).map
          (fun j => (⟨mkNsName pfx (0 + j),
            ⟨nsPath (mkNsName pfx (0 + j))⟩⟩ : NetNs))) env w, 0) := by
      rw [inner_main, hcl, r2]
    rw [hmain]
    obtain ⟨hva, hvd, -⟩ := extract_dropVec_trace _ env w
    constructor
    · simp only
      rw [addOrder_append, ra, hva]
      simp
    · simp only
      rw [delOrder_append, rd, hvd]
      simp [List.map_map, Function.comp]
  · intro pfx n k env w hkn hok hfail
    have hok0 : ∀ j, j < k → creationOk env w (mkNsName pfx (0 + j)) := by
      intro j hj
      rw [Nat.zero_add]
      exact hok j hj
    have hfail0 : ¬ creationOk env w (mkNsName pfx (0 + k)) := by
      rwa [Nat.zero_add]
    obtain ⟨⟨e, he⟩, ea, ed, hea, hed, hadd, hdel⟩ :=
      create_loop_fail k n 0 [] pfx env w hkn hok0 hfail0
    rcases hcl : create_namespaces pfx n env w with ⟨t, r⟩
    have hloop : create_loop pfx env w 0 n [] = (t, r) := by
      rw [← hcl]; rfl
    rw [hloop] at he hadd hdel
    simp only at he hadd hdel
    have hmain : inner_main pfx n env w = (t ++ [Act.errLine], 1) := by
      rw [inner_main, hcl, he]
    rw [hmain]
    refine ⟨ea, ed, ?_, ?_, ?_, ?_⟩
    · simpa using hea
    · simpa using hed
    · simp only
      rw [addOrder_append, hadd]
      simp
    · simp only
      rw [delOrder_append, hdel]
      simp

/-- Witness for C1's amended theorem at a concrete input: two
namespaces under the all-ok world are created 0,1 and deleted 0,1. -/
theorem c1_teardown_order_amended_witness :
    addOrder (inner_main "q" 2 env0 allOkWorld).1 =
      (List.range 2).map (fun j => mkNsName "q" j) ∧
    delOrder (inner_main "q" 2 env0 allOkWorld).1 =
      (List.range 2).map (fun j => mkNsName "q" j) :=
  c1_teardown_order_amended.1 "q" 2 env0 allOkWorld
    (fun _ _ => ⟨Or.inr rfl, rfl, rfl⟩)

end ONT
